import Mathlib

/-!
Verification development for the glancelog log-analysis pipeline.

The Rust sources are shallowly embedded here:

* `src/log_entry.rs` — `LogEntry`, `LogEntry::set_abnormal`, the parser
  capability interface (`LogParser`), `CrunchLog::from_reader`,
  `CrunchLog::detect_parser`, `CrunchLog::entry_to_datetime`,
  `CrunchLog::filter_by_time`, and `RSyslogParser::parse`.
* `src/hash.rs` — `SuperHash` (aggregation tables): `increment`, the
  `fill_*` passes, `from_log`, and the ranking comparator of `display`.
* `src/graph.rs` — the histogram engine's `fill_days` and `fill_months`.
* `src/bin/glancelog.rs` — `mode_print`'s line formatting.

Embedding conventions:

* Rust `u32` fields become `Nat`, `i32`/`i64` become `Int`; Rust integer
  division/remainder (truncation toward zero) is `Int.tdiv`/`Int.tmod`.
* `HashMap<String, V>` is embedded as an insertion-ordered association
  list with unique keys; `insert`, `get_mut` and `entry().or_insert()`
  update the (unique) existing binding.  Iteration order of a `HashMap`
  is unspecified in Rust; where the code iterates a map we fold over the
  association list, and no theorem below depends on that order.
* `chrono` date arithmetic is embedded through the standard proleptic
  Gregorian civil-calendar bijection (days-from-civil / civil-from-days);
  `DateTime<Local>` values in the code are all built with
  `from_naive_utc_and_offset` from one fixed offset, so their ordering is
  the ordering of the naive civil tuples, embedded here as seconds counts.
  chrono additionally caps years at about ±262000, which no claim touches;
  the embedding uses the calendar over all integer years.
* The `Filter::scrub` capability loads regex rule files from disk and is
  treated by the core as an injected capability (spec §2); it is embedded
  as an arbitrary function `String → String`.  Likewise the regex-based
  `is_type`/`parse` members of the nine remaining format parsers enter the
  theorems as parameters of type `LogFormat`; the `Raw` and `RSyslog`
  parsers, which the claims exercise, are embedded concretely.
-/

namespace Glancelog

/-! ## Decimal formatting and parsing (Rust `format!` / `str::parse`) -/

/-- Decimal digit character, `48 + d` is the ASCII code of the digit `d`. -/
def digitChar (d : Nat) : Char := Char.ofNat (48 + d)

/-- Fuel-driven most-significant-first decimal digits of a natural number.
Fuel `n + 1` always suffices because the argument strictly decreases. -/
def natDecimalAux : Nat → Nat → List Char
  | 0, _ => []
  | Nat.succ fuel, n =>
    if n < 10 then [digitChar n]
    else natDecimalAux fuel (n / 10) ++ [digitChar (n % 10)]

/-- Canonical decimal digits of a natural number (Rust `{}` on unsigned). -/
def natDecimal (n : Nat) : List Char := natDecimalAux (n + 1) n

/-- Canonical decimal digits of an integer (Rust `{}` on `i32`). -/
def intDecimal (i : Int) : List Char :=
  if i < 0 then '-' :: natDecimal i.natAbs else natDecimal i.toNat

/-- Zero-pad on the left to width `w` (Rust `{:0w}` for unsigned values). -/
def padZeros (w : Nat) (l : List Char) : List Char :=
  List.replicate (w - l.length) '0' ++ l

/-- Rust `{:02}` of a `u32` value. -/
def pad2 (n : Nat) : List Char := padZeros 2 (natDecimal n)

/-- Rust `{:04}` of an `i32` value (the sign counts toward the width). -/
def intPad4 (i : Int) : List Char :=
  if i < 0 then '-' :: padZeros 3 (natDecimal i.natAbs)
  else padZeros 4 (natDecimal i.toNat)

/-- Accumulating decimal parser: digits only, value in the accumulator.
Mirrors the digit loop inside Rust's `from_str` for unsigned integers. -/
def parseNatCore : Nat → List Char → Option Nat
  | acc, [] => some acc
  | acc, c :: cs =>
    if c.isDigit then parseNatCore (10 * acc + (c.toNat - 48)) cs else none

/-- Rust `str::parse::<u32>`: optional `+` sign, at least one digit, and the
value must fit in 32 bits. -/
def parse_u32 (s : String) : Option Nat :=
  let l := match s.data with
    | c :: rest => if c = '+' then rest else c :: rest
    | [] => []
  if l.isEmpty then none
  else match parseNatCore 0 l with
    | some v => if v < 2 ^ 32 then some v else none
    | none => none

/-- Rust `str::parse::<i32>`: optional sign, digits, 32-bit signed range. -/
def parse_i32 (s : String) : Option Int :=
  match s.data with
  | [] => none
  | c :: rest =>
    if c = '-' then
      if rest.isEmpty then none
      else match parseNatCore 0 rest with
        | some v => if v ≤ 2 ^ 31 then some (-(v : Int)) else none
        | none => none
    else
      let l := if c = '+' then rest else c :: rest
      if l.isEmpty then none
      else match parseNatCore 0 l with
        | some v => if v < 2 ^ 31 then some ((v : Int)) else none
        | none => none

/-! ## Whitespace splitting (Rust `split_whitespace`, `split`, `join`, `trim`) -/

/-- Split a character list at every separator, keeping empty pieces;
this is Rust's `str::split` collected to a vector.  The result is never
empty: splitting the empty string yields one empty piece. -/
def splitBy (p : Char → Bool) : List Char → List (List Char)
  | [] => [[]]
  | c :: cs =>
    if p c then [] :: splitBy p cs
    else match splitBy p cs with
      | [] => [[c]]
      | w :: ws => (c :: w) :: ws

/-- Rust `str::split_whitespace`: split on whitespace runs, no empty pieces. -/
def wsWords (l : List Char) : List (List Char) :=
  (splitBy Char.isWhitespace l).filter (fun w => !w.isEmpty)

/-- String-level `split_whitespace`. -/
def splitWsStr (s : String) : List String := (wsWords s.data).map String.mk

/-- Rust `[..].join(" ")` at the character level. -/
def joinSpace : List (List Char) → List Char
  | [] => []
  | [w] => w
  | w :: ws => w ++ [' '] ++ joinSpace ws

/-- String-level `join(" ")`. -/
def joinSpaceStr (l : List String) : String :=
  String.mk (joinSpace (l.map String.data))

/-- Rust `str::split(c)` collected, at the string level. -/
def splitCharStr (c : Char) (s : String) : List String :=
  (splitBy (fun x => x == c) s.data).map String.mk

/-- Rust `str::trim` (drop whitespace from both ends). -/
def trimChars (l : List Char) : List Char :=
  ((l.dropWhile Char.isWhitespace).reverse.dropWhile Char.isWhitespace).reverse

/-- The empty string (named so literals appear only in definition bodies). -/
def emptyStr : String := ""

/-- The reserved marker string `"#"` (sentinel host/daemon, scrub output). -/
def markerStr : String := "#"

/-! ## Record model (`src/log_entry.rs`, struct `LogEntry`) -/

/-- One normalized log record: `LogEntry` of `src/log_entry.rs`.
Rust types: `year: i32`, the other numeric fields `u32`, text `String`. -/
structure LogEntry where
  year : Int
  month : Nat
  day : Nat
  hour : Nat
  minute : Nat
  second : Nat
  host : String
  daemon : String
  log_entry : String
deriving DecidableEq

/-- `LogEntry::new`: the all-sentinel record. -/
def LogEntry.new : LogEntry :=
  { year := 1900, month := 1, day := 1, hour := 0, minute := 0, second := 0,
    host := markerStr, daemon := markerStr, log_entry := markerStr }

/-- `LogEntry::set_abnormal`: reset every field to the sentinel values and
keep the raw line as the message. -/
def LogEntry.set_abnormal (_e : LogEntry) (value : String) : LogEntry :=
  { year := 1900, month := 1, day := 1, hour := 0, minute := 0, second := 0,
    host := markerStr, daemon := markerStr, log_entry := value }

/-- A record has the abnormal-sentinel shape produced by `set_abnormal`. -/
def IsSentinelRecord (e : LogEntry) : Prop :=
  ∃ e0 raw, e = LogEntry.set_abnormal e0 raw

/-- Boolean test for the abnormal-sentinel shape (all sentinel fields). -/
def is_sentinel_shape (e : LogEntry) : Bool :=
  e.year == 1900 && e.month == 1 && e.day == 1 && e.hour == 0 &&
  e.minute == 0 && e.second == 0 && e.host == markerStr && e.daemon == markerStr

/-- The parsed collection: `CrunchLog` of `src/log_entry.rs`. -/
structure CrunchLog where
  entries : List LogEntry
  parser_type : String
deriving DecidableEq

/-! ## Civil-calendar arithmetic (embedding of `chrono` dates) -/

/-- Gregorian leap-year test. -/
def isLeapYear (y : Int) : Bool := y % 4 == 0 && (y % 100 != 0 || y % 400 == 0)

/-- Days in a month of the proleptic Gregorian calendar; `0` for an
out-of-range month number so that every day check fails on it. -/
def daysInMonth (y : Int) (m : Nat) : Nat :=
  match m with
  | 1 => 31 | 3 => 31 | 5 => 31 | 7 => 31 | 8 => 31 | 10 => 31 | 12 => 31
  | 4 => 30 | 6 => 30 | 9 => 30 | 11 => 30
  | 2 => if isLeapYear y then 29 else 28
  | _ => 0

/-- Day count since 1970-01-01 of a civil date (standard era-based
algorithm, the same function of (y,m,d) that `chrono` computes). -/
def daysFromCivil (y : Int) (m d : Nat) : Int :=
  let yAdj : Int := if (m : Int) ≤ 2 then y - 1 else y
  let era : Int := (if 0 ≤ yAdj then yAdj else yAdj - 399).tdiv 400
  let yoe : Int := yAdj - era * 400
  let mp : Int := if 2 < (m : Int) then (m : Int) - 3 else (m : Int) + 9
  let doy : Int := (153 * mp + 2).tdiv 5 + (d : Int) - 1
  let doe : Int := yoe * 365 + yoe.tdiv 4 - yoe.tdiv 100 + doy
  era * 146097 + doe - 719468

/-- Inverse of `daysFromCivil`: the civil date of a day count. -/
def civilFromDays (z0 : Int) : Int × Nat × Nat :=
  let z : Int := z0 + 719468
  let era : Int := (if 0 ≤ z then z else z - 146096).tdiv 146097
  let doe : Int := z - era * 146097
  let yoe : Int := (doe - doe.tdiv 1460 + doe.tdiv 36524 - doe.tdiv 146096).tdiv 365
  let y : Int := yoe + era * 400
  let doy : Int := doe - (365 * yoe + yoe.tdiv 4 - yoe.tdiv 100)
  let mp : Int := (5 * doy + 2).tdiv 153
  let d : Int := doy - (153 * mp + 2).tdiv 5 + 1
  let m : Int := if mp < 10 then mp + 3 else mp - 9
  (if m ≤ 2 then y + 1 else y, m.toNat, d.toNat)

/-- A civil datetime, the embedding of a `chrono::DateTime<Local>` built
via `from_naive_utc_and_offset` (all such values share one offset, so
comparisons reduce to the civil tuple). -/
structure CivilDateTime where
  year : Int
  month : Nat
  day : Nat
  hour : Nat
  minute : Nat
  second : Nat
deriving DecidableEq

/-- Seconds count of a civil datetime; the order embedding of `DateTime`
comparison in the code. -/
def toSecs (dt : CivilDateTime) : Int :=
  daysFromCivil dt.year dt.month dt.day * 86400 +
    (dt.hour : Int) * 3600 + (dt.minute : Int) * 60 + (dt.second : Int)

/-- Add `k` calendar days, keeping the time of day
(`DateTime + Duration::days(k)` under a fixed offset). -/
def dtAddDays (dt : CivilDateTime) (k : Int) : CivilDateTime :=
  let c := civilFromDays (daysFromCivil dt.year dt.month dt.day + k)
  { year := c.1, month := c.2.1, day := c.2.2,
    hour := dt.hour, minute := dt.minute, second := dt.second }

/-- Validity test of `NaiveDate::from_ymd_opt`. -/
def validYmd (y : Int) (m d : Nat) : Bool :=
  decide (1 ≤ m) && decide (m ≤ 12) && decide (1 ≤ d) && decide (d ≤ daysInMonth y m)

/-- Validity test of `NaiveTime::from_hms_opt`. -/
def validHms (h mi s : Nat) : Bool :=
  decide (h ≤ 23) && decide (mi ≤ 59) && decide (s ≤ 59)

/-- `CrunchLog::entry_to_datetime` (`src/log_entry.rs` lines 812–819):
reconstruct a datetime from the record's fields, falling back to
1900-01-01 for an invalid date and to midnight for an invalid time. -/
def entry_to_datetime (e : LogEntry) : CivilDateTime :=
  let date : Int × Nat × Nat :=
    if validYmd e.year e.month e.day then (e.year, e.month, e.day) else (1900, 1, 1)
  let time : Nat × Nat × Nat :=
    if validHms e.hour e.minute e.second then (e.hour, e.minute, e.second) else (0, 0, 0)
  { year := date.1, month := date.2.1, day := date.2.2,
    hour := time.1, minute := time.2.1, second := time.2.2 }

/-- The sentinel instant 1900-01-01 00:00:00 carried by abnormal records. -/
def sentinelInstant : CivilDateTime :=
  { year := 1900, month := 1, day := 1, hour := 0, minute := 0, second := 0 }

/-! ## Time-range filter (`CrunchLog::filter_by_time`, lines 821–841) -/

/-- The `retain` closure of `filter_by_time`: reject below an optional
lower bound, reject above an optional upper bound, keep otherwise. -/
def retain_entry (fromDt toDt : Option CivilDateTime) (entry : LogEntry) : Bool :=
  let entryDt := toSecs (entry_to_datetime entry)
  let failFrom : Bool := match fromDt with
    | some f => decide (entryDt < toSecs f)
    | none => false
  let failTo : Bool := match toDt with
    | some t => decide (toSecs t < entryDt)
    | none => false
  !failFrom && !failTo

/-- `CrunchLog::filter_by_time`: retain exactly the records the closure
accepts (Rust `Vec::retain` keeps relative order). -/
def CrunchLog.filter_by_time (log : CrunchLog) (fromDt toDt : Option CivilDateTime) : CrunchLog :=
  { log with entries := log.entries.filter (retain_entry fromDt toDt) }

/-- Specification-side inclusive-bounds test (spec §4.4: keep a record iff
its reconstructed timestamp lies within the inclusive bounds). -/
def in_time_range (fromDt toDt : Option CivilDateTime) (entry : LogEntry) : Bool :=
  let t := toSecs (entry_to_datetime entry)
  (match fromDt with
    | some f => decide (toSecs f ≤ t)
    | none => true) &&
  (match toDt with
    | some u => decide (t ≤ toSecs u)
    | none => true)

/-! ## Parser capability and format detection (`src/log_entry.rs`) -/

/-- The `LogParser` capability interface: `is_type`, `parse`, `name`.
The nine regex-backed grammars enter theorems as values of this type;
`Raw` and `RSyslog` are embedded concretely below. -/
structure LogFormat where
  is_type : String → Bool
  parse : String → Except String LogEntry
  name : String

/-- `RawParser`: recognizes any line that is non-blank after trimming,
and parses every line to the abnormal sentinel record. -/
def raw_format : LogFormat :=
  { is_type := fun line => !(trimChars line.data).isEmpty,
    parse := fun line => Except.ok (LogEntry.set_abnormal LogEntry.new line),
    name := "Raw" }

/-- Score-driven selection inside `CrunchLog::detect_parser` (lines
798–810): first index whose score reaches `sample_size / 4` (integer
division) and equals the maximum, else the last index (the raw parser). -/
def detect_select (scores : List Nat) (sampleSize : Nat) : Nat :=
  let maxScore := scores.foldl Nat.max 0
  let threshold := sampleSize / 4
  match scores.findIdx? (fun s => decide (threshold ≤ s) && s == maxScore) with
  | some i => i
  | none => scores.length - 1

/-- Claim-side selection rule read with exact rational arithmetic:
the top score must be at least one quarter of the sample size, i.e.
`4 * maxScore ≥ sampleSize`; ties go to the first (most specific) index;
otherwise the last index (raw).  Modelled from the claim wording for
comparison with `detect_select`. -/
def claim_select_exact (scores : List Nat) (sampleSize : Nat) : Nat :=
  let maxScore := scores.foldl Nat.max 0
  if sampleSize ≤ 4 * maxScore then
    (scores.findIdx? (fun s => s == maxScore)).getD (scores.length - 1)
  else scores.length - 1

/-- Claim-side selection rule with the floor threshold `sampleSize / 4`
(integer division), ties to the first index, raw fallback otherwise. -/
def claim_select_floor (scores : List Nat) (sampleSize : Nat) : Nat :=
  let maxScore := scores.foldl Nat.max 0
  if sampleSize / 4 ≤ maxScore then
    (scores.findIdx? (fun s => s == maxScore)).getD (scores.length - 1)
  else scores.length - 1

/-- `CrunchLog::detect_parser` (lines 783–810): draw `min 10 (#lines)`
random lines (with replacement), score every parser by how many draws it
recognizes, then select.  The random draws of `rand::random::<usize>()`
are passed in as the list `rand` (spec §5 requires injectable randomness). -/
def detect_format (lines : List String) (formats : List LogFormat) (rand : List Nat) : Nat :=
  let sampleSize := Nat.min 10 lines.length
  let draws := (List.range sampleSize).map
    (fun k => lines.getD ((rand.getD k 0) % lines.length) emptyStr)
  let scores := formats.map (fun f => draws.countP f.is_type)
  detect_select scores sampleSize

/-- Per-line parsing step of the `from_reader` loop (lines 764–775): a
parse failure degrades to the abnormal sentinel record. -/
def parse_or_abnormal (f : LogFormat) (line : String) : LogEntry :=
  match f.parse line with
  | Except.ok entry => entry
  | Except.error _ => LogEntry.set_abnormal LogEntry.new line

/-- `CrunchLog::from_reader` (lines 737–781): fail on an empty batch,
otherwise detect a parser over the registry `formats` and parse every
line with the winner.  The concrete eleven-parser registry of the source
instantiates `formats`; `rand` carries the random draws. -/
def CrunchLog.from_reader (formats : List LogFormat) (rand : List Nat)
    (lines : List String) : Except String CrunchLog :=
  if lines.isEmpty then Except.error ("No data found")
  else
    let idx := detect_format lines formats rand
    let winner := formats.getD idx raw_format
    Except.ok { entries := lines.map (parse_or_abnormal winner),
                parser_type := winner.name }

/-! ## Aggregation tables (`src/hash.rs`, `SuperHash`) -/

/-- Grouping modes of `SuperHash::from_log` (`HashMode` in `src/hash.rs`). -/
inductive HashMode
  | Hash
  | Daemon
  | Host
  | WordCount

/-- Sample-display modes (`SampleMode` in `src/hash.rs`). -/
inductive SampleMode
  | None
  | Threshold
  | All

/-- Update of the `data` map by `SuperHash::increment` (lines 46–54):
`entry(key).and_modify(count += 1, push entry).or_insert((1, vec![entry]))`.
On the unique-keyed association list this touches the first (only)
binding of the key, or appends a fresh binding. -/
def incData : List (String × Nat × List LogEntry) → String → LogEntry →
    List (String × Nat × List LogEntry)
  | [], key, entry => [(key, 1, [entry])]
  | kv :: rest, key, entry =>
    if kv.1 == key then (kv.1, kv.2.1 + 1, kv.2.2 ++ [entry]) :: rest
    else kv :: incData rest key entry

/-- The aggregation table `SuperHash`: the frequency map plus the injected
`Filter::scrub` capability and the display policy fields. -/
structure SuperHash where
  data : List (String × Nat × List LogEntry)
  filter : String → String
  sample_mode : SampleMode
  sample_threshold : Nat

/-- `SuperHash::new`. -/
def SuperHash.new (filterF : String → String) : SuperHash :=
  { data := [], filter := filterF, sample_mode := SampleMode.Threshold,
    sample_threshold := 3 }

/-- `SuperHash::increment`. -/
def SuperHash.increment (h : SuperHash) (key : String) (entry : LogEntry) : SuperHash :=
  { h with data := incData h.data key entry }

/-- `SuperHash::fill_hash` (lines 113–119): key is the scrubbed
`"{daemon} {log_entry}"`. -/
def SuperHash.fill_hash (h : SuperHash) (log : CrunchLog) : SuperHash :=
  log.entries.foldl
    (fun acc entry =>
      acc.increment (acc.filter (entry.daemon ++ " " ++ entry.log_entry)) entry)
    h

/-- `SuperHash::fill_daemon` (lines 121–126). -/
def SuperHash.fill_daemon (h : SuperHash) (log : CrunchLog) : SuperHash :=
  log.entries.foldl (fun acc entry => acc.increment (acc.filter entry.daemon) entry) h

/-- `SuperHash::fill_host` (lines 128–133): key is the scrubbed host. -/
def SuperHash.fill_host (h : SuperHash) (log : CrunchLog) : SuperHash :=
  log.entries.foldl (fun acc entry => acc.increment (acc.filter entry.host) entry) h

/-- Push one occurrence of a word into the word map
(`word_map.entry(word).or_insert_with(Vec::new).push(word)`). -/
def pushWord : List (String × List String) → String → List (String × List String)
  | [], w => [(w, [w])]
  | kv :: rest, w =>
    if kv.1 == w then (kv.1, kv.2 ++ [w]) :: rest else kv :: pushWord rest w

/-- Add `n` to a key's tally
(`*scrubbed_map.entry(scrubbed).or_insert(0) += instances.len()`). -/
def addCount : List (String × Nat) → String → Nat → List (String × Nat)
  | [], k, n => [(k, n)]
  | kv :: rest, k, n =>
    if kv.1 == k then (kv.1, kv.2 + n) :: rest else kv :: addCount rest k n

/-- `SuperHash::fill_wordcount` (lines 135–165): collect every whitespace
token of every message, scrub each distinct token, drop tokens scrubbing
to the marker, then increment the table once per surviving occurrence. -/
def SuperHash.fill_wordcount (h : SuperHash) (log : CrunchLog) : SuperHash :=
  let word_map : List (String × List String) :=
    log.entries.foldl
      (fun m entry => (splitWsStr entry.log_entry).foldl (fun m2 w => pushWord m2 w) m)
      []
  let scrubbed_map : List (String × Nat) :=
    word_map.foldl
      (fun sm kv =>
        let scrubbed := h.filter kv.1
        if scrubbed == markerStr then sm else addCount sm scrubbed kv.2.length)
      []
  scrubbed_map.foldl
    (fun acc kv =>
      let entry := { LogEntry.new with log_entry := kv.1 }
      (List.range kv.2).foldl (fun acc2 _ => acc2.increment kv.1 entry) acc)
    h

/-- `SuperHash::from_log` (lines 97–111): build per mode, then remove the
valueless `"#"` binding (`data.remove("#")`; on the unique-keyed list this
is a filter). -/
def SuperHash.from_log (log : CrunchLog) (mode : HashMode) (filterF : String → String) : SuperHash :=
  let h := SuperHash.new filterF
  let h := match mode with
    | HashMode.Hash => h.fill_hash log
    | HashMode.Daemon => h.fill_daemon log
    | HashMode.Host => h.fill_host log
    | HashMode.WordCount => h.fill_wordcount log
  { h with data := h.data.filter (fun kv => !(kv.1 == markerStr)) }

/-- The comparator of `SuperHash::display` (lines 58–66) as a boolean
order: ranked before means larger count, or equal count and key not
larger (Rust `sort_by` ascending in the comparator). -/
def rank_le (a b : String × Nat × List LogEntry) : Bool :=
  decide (b.2.1 < a.2.1) || (a.2.1 == b.2.1 && decide (a.1 ≤ b.1))

/-- The sorted item sequence of `SuperHash::display` (Rust `sort_by` is a
stable merge sort). -/
def SuperHash.display_items (h : SuperHash) : List (String × Nat × List LogEntry) :=
  h.data.mergeSort rank_le

/-- The rows actually printed by `display`: the sorted items minus the
skipped `"#"` key (lines 68–71). -/
def SuperHash.displayed_rows (h : SuperHash) : List (String × Nat × List LogEntry) :=
  h.display_items.filter (fun kv => !(kv.1 == markerStr))

/-- Total of the occurrence counters of a table. -/
def sumCounts (h : SuperHash) : Nat := (h.data.map (fun kv => kv.2.1)).sum

/-- Total of the occurrence counters held under keys other than the
reserved marker. -/
def sumDataNonMarker (data : List (String × Nat × List LogEntry)) : Nat :=
  ((data.filter (fun kv => !(kv.1 == markerStr))).map (fun kv => kv.2.1)).sum

/-- Claim-side tally for group-by-host mode, modelled from the claim
wording: the number of non-sentinel records whose scrubbed host is not
the reserved marker. -/
def claim_host_count (log : CrunchLog) (filterF : String → String) : Nat :=
  log.entries.countP (fun e => !(is_sentinel_shape e) && !(filterF e.host == markerStr))

/-- Count/representative agreement: every binding stores as many
representative records as its counter says. -/
def SuperHash.CountInvariant (h : SuperHash) : Prop :=
  ∀ kv ∈ h.data, kv.2.1 = kv.2.2.length

/-- An arbitrary further sequence of `increment` calls. -/
def apply_increments (incs : List (String × LogEntry)) (h : SuperHash) : SuperHash :=
  incs.foldl (fun acc kv => acc.increment kv.1 kv.2) h

/-! ## Histogram engine (`src/graph.rs`, `GraphHash`) -/

/-- `HashMap::insert k v` on the unique-keyed association list. -/
def hmInsert : List (String × Nat) → String → Nat → List (String × Nat)
  | [], k, v => [(k, v)]
  | kv :: rest, k, v =>
    if kv.1 == k then (k, v) :: rest else kv :: hmInsert rest k v

/-- The `if let Some(count) = data.get_mut(&key) { *count += 1 }` step. -/
def hmBump : List (String × Nat) → String → List (String × Nat)
  | [], _ => []
  | kv :: rest, k =>
    if kv.1 == k then (kv.1, kv.2 + 1) :: rest else kv :: hmBump rest k

/-- `HashMap::contains_key`. -/
def hmContains (m : List (String × Nat)) (k : String) : Bool :=
  m.any (fun kv => kv.1 == k)

/-- Sum of all bucket counts. -/
def hmSum (m : List (String × Nat)) : Nat := (m.map (fun kv => kv.2)).sum

/-- Day bucket key `format!("{}{:02}{:02}", year, month, day)` of a date. -/
def dayKeyOf (dt : CivilDateTime) : String :=
  String.mk (intDecimal dt.year ++ pad2 dt.month ++ pad2 dt.day)

/-- Month bucket key `format!("{}{:02}", year, month)` of a date. -/
def monthKeyOf (dt : CivilDateTime) : String :=
  String.mk (intDecimal dt.year ++ pad2 dt.month)

/-- Day key of a record, from its raw fields (lines 214–216). -/
def entry_day_key (e : LogEntry) : String :=
  String.mk (intDecimal e.year ++ pad2 e.month ++ pad2 e.day)

/-- Month key of a record, from its raw fields (lines 246–247). -/
def entry_month_key (e : LogEntry) : String :=
  String.mk (intDecimal e.year ++ pad2 e.month)

/-- `Duration::num_days` of the signed difference of two datetimes
(seconds difference, truncated division by 86400). -/
def num_days_between (a b : CivilDateTime) : Int := (toSecs b - toSecs a).tdiv 86400

/-- Day-bucket keys pre-created by `fill_days`: the keys of
`start + i days` for `i < duration` — `duration` consecutive days
starting at the start point. -/
def day_span_keys (startDate : CivilDateTime) (duration : Int) : List String :=
  (List.range duration.toNat).map (fun i => dayKeyOf (dtAddDays startDate (Int.ofNat i)))

/-- `GraphHash::fill_days` (lines 191–221): duration is the day span of a
custom range (minimum 1) or the default 31; pre-create a zero bucket per
span day; count each record into its bucket only if that bucket exists.
Returns the bucket map and the duration (the display-only `middle_date`
and `end_date` fields are not modelled). -/
def days_duration (startDate : CivilDateTime) (toDate : Option CivilDateTime)
    (customRange : Bool) : Int :=
  match toDate, customRange with
  | some endDt, true => max (num_days_between startDate endDt) 1
  | _, _ => 31

def fill_days (entries : List LogEntry) (startDate : CivilDateTime)
    (toDate : Option CivilDateTime) (customRange : Bool) : List (String × Nat) × Int :=
  let duration := days_duration startDate toDate customRange
  let init := (day_span_keys startDate duration).foldl (fun m k => hmInsert m k 0) []
  let filled := entries.foldl (fun m e => hmBump m (entry_day_key e)) init
  (filled, duration)

/-- Month-bucket keys pre-created by `fill_months` (lines 236–241): the
month keys of `start + ((i*365)/12 + 1) days` for `i < duration`. -/
def month_code_span_keys (startDate : CivilDateTime) (duration : Int) : List String :=
  (List.range duration.toNat).map
    (fun i => monthKeyOf (dtAddDays startDate (Int.ofNat ((i * 365) / 12 + 1))))

/-- `GraphHash::fill_months` (lines 223–252): duration is the day span
divided by 30 (minimum 1) or the default 12; pre-create a zero bucket at
each approximated month offset; count records into existing buckets. -/
def months_duration (startDate : CivilDateTime) (toDate : Option CivilDateTime)
    (customRange : Bool) : Int :=
  match toDate, customRange with
  | some endDt, true => max ((num_days_between startDate endDt).tdiv 30) 1
  | _, _ => 12

def fill_months (entries : List LogEntry) (startDate : CivilDateTime)
    (toDate : Option CivilDateTime) (customRange : Bool) : List (String × Nat) × Int :=
  let duration := months_duration startDate toDate customRange
  let init := (month_code_span_keys startDate duration).foldl (fun m k => hmInsert m k 0) []
  let filled := entries.foldl (fun m e => hmBump m (entry_month_key e)) init
  (filled, duration)

/-- `GraphHash::new_with_range` dispatched to `fill_months` (lines 33–78):
empty log yields an empty graph, the start date is the `from` bound or
the first record's reconstructed timestamp, and a custom range is flagged
when either bound is present. -/
def graph_months (log : CrunchLog) (fromDt toDt : Option CivilDateTime) :
    List (String × Nat) × Int :=
  if log.entries.isEmpty then ([], 0)
  else
    let startDate := match fromDt with
      | some f => f
      | none => entry_to_datetime (log.entries.headD LogEntry.new)
    fill_months log.entries startDate toDt (fromDt.isSome || toDt.isSome)

/-- Claim-side month span, modelled from the claim wording: the bucket
keys of `duration` consecutive months starting at the start point's
month. -/
def claim_month_span (startDate : CivilDateTime) (duration : Nat) : List String :=
  (List.range duration).map
    (fun i =>
      let idx : Int := startDate.year * 12 + ((startDate.month : Int) - 1) + (i : Int)
      String.mk (intDecimal (idx / 12) ++ pad2 (idx % 12 + 1).toNat))

/-- Add `k` seconds on the timeline (`DateTime + Duration::seconds(k)`
under a fixed offset): total-seconds arithmetic, split back into a civil
date by floor division and a time of day by the remainder. -/
def dtAddSecs (dt : CivilDateTime) (k : Int) : CivilDateTime :=
  let s := toSecs dt + k
  let days := s.fdiv 86400
  let rem := (s - days * 86400).toNat
  let c := civilFromDays days
  { year := c.1, month := c.2.1, day := c.2.2,
    hour := rem / 3600, minute := rem / 60 % 60, second := rem % 60 }

/-- Second bucket key `format!("{}{:02}{:02}{:02}{:02}{:02}", ...)` of a
date (lines 105–107). -/
def secKeyOf (dt : CivilDateTime) : String :=
  String.mk (intDecimal dt.year ++ pad2 dt.month ++ pad2 dt.day ++
    pad2 dt.hour ++ pad2 dt.minute ++ pad2 dt.second)

/-- Minute bucket key `format!("{}{:02}{:02}{:02}{:02}", ...)` of a date
(lines 140–142). -/
def minKeyOf (dt : CivilDateTime) : String :=
  String.mk (intDecimal dt.year ++ pad2 dt.month ++ pad2 dt.day ++
    pad2 dt.hour ++ pad2 dt.minute)

/-- Hour bucket key `format!("{}{:02}{:02}{:02}", ...)` of a date
(lines 174–175). -/
def hourKeyOf (dt : CivilDateTime) : String :=
  String.mk (intDecimal dt.year ++ pad2 dt.month ++ pad2 dt.day ++ pad2 dt.hour)

/-- Year bucket key `format!("{}", year)` of a date (line 269). -/
def yearKeyOf (dt : CivilDateTime) : String :=
  String.mk (intDecimal dt.year)

/-- Second key of a record, from its raw fields (lines 116–118). -/
def entry_sec_key (e : LogEntry) : String :=
  String.mk (intDecimal e.year ++ pad2 e.month ++ pad2 e.day ++
    pad2 e.hour ++ pad2 e.minute ++ pad2 e.second)

/-- Minute key of a record, from its raw fields (lines 150–152). -/
def entry_min_key (e : LogEntry) : String :=
  String.mk (intDecimal e.year ++ pad2 e.month ++ pad2 e.day ++
    pad2 e.hour ++ pad2 e.minute)

/-- Hour key of a record, from its raw fields (lines 183–184). -/
def entry_hour_key (e : LogEntry) : String :=
  String.mk (intDecimal e.year ++ pad2 e.month ++ pad2 e.day ++ pad2 e.hour)

/-- Year key of a record, from its raw fields (line 277). -/
def entry_year_key (e : LogEntry) : String :=
  String.mk (intDecimal e.year)

/-- `Duration::num_seconds` of the signed difference of two datetimes. -/
def num_secs_between (a b : CivilDateTime) : Int := toSecs b - toSecs a

/-- Second-bucket keys pre-created by `fill_seconds` (lines 103–109): the
keys of `start + i seconds` for `i < duration` — `duration` consecutive
seconds starting at the start point. -/
def sec_span_keys (startDate : CivilDateTime) (duration : Int) : List String :=
  (List.range duration.toNat).map (fun i => secKeyOf (dtAddSecs startDate (Int.ofNat i)))

/-- `GraphHash::fill_seconds` (lines 89–123): duration is the seconds
span of a custom range (minimum 1) or the default 60; pre-create a zero
bucket per span second; count each record into its bucket only if that
bucket exists. -/
def secs_duration (startDate : CivilDateTime) (toDate : Option CivilDateTime)
    (customRange : Bool) : Int :=
  match toDate, customRange with
  | some endDt, true => max (num_secs_between startDate endDt) 1
  | _, _ => 60

def fill_seconds (entries : List LogEntry) (startDate : CivilDateTime)
    (toDate : Option CivilDateTime) (customRange : Bool) : List (String × Nat) × Int :=
  let duration := secs_duration startDate toDate customRange
  let init := (sec_span_keys startDate duration).foldl (fun m k => hmInsert m k 0) []
  let filled := entries.foldl (fun m e => hmBump m (entry_sec_key e)) init
  (filled, duration)

/-- Minute-bucket keys pre-created by `fill_minutes` (lines 138–144): the
keys of `start + i minutes` for `i < duration` — `duration` consecutive
minutes starting at the start point. -/
def min_span_keys (startDate : CivilDateTime) (duration : Int) : List String :=
  (List.range duration.toNat).map
    (fun i => minKeyOf (dtAddSecs startDate (Int.ofNat (i * 60))))

/-- `GraphHash::fill_minutes` (lines 125–157): duration is
`num_minutes().max(1)` of a custom range (truncated division by 60) or
the default 60. -/
def mins_duration (startDate : CivilDateTime) (toDate : Option CivilDateTime)
    (customRange : Bool) : Int :=
  match toDate, customRange with
  | some endDt, true => max ((num_secs_between startDate endDt).tdiv 60) 1
  | _, _ => 60

def fill_minutes (entries : List LogEntry) (startDate : CivilDateTime)
    (toDate : Option CivilDateTime) (customRange : Bool) : List (String × Nat) × Int :=
  let duration := mins_duration startDate toDate customRange
  let init := (min_span_keys startDate duration).foldl (fun m k => hmInsert m k 0) []
  let filled := entries.foldl (fun m e => hmBump m (entry_min_key e)) init
  (filled, duration)

/-- Hour-bucket keys pre-created by `fill_hours` (lines 172–177): the
keys of `start + i hours` for `i < duration` — `duration` consecutive
hours starting at the start point. -/
def hour_span_keys (startDate : CivilDateTime) (duration : Int) : List String :=
  (List.range duration.toNat).map
    (fun i => hourKeyOf (dtAddSecs startDate (Int.ofNat (i * 3600))))

/-- `GraphHash::fill_hours` (lines 159–189): duration is
`num_hours().max(1)` of a custom range (truncated division by 3600) or
the default 24. -/
def hours_duration (startDate : CivilDateTime) (toDate : Option CivilDateTime)
    (customRange : Bool) : Int :=
  match toDate, customRange with
  | some endDt, true => max ((num_secs_between startDate endDt).tdiv 3600) 1
  | _, _ => 24

def fill_hours (entries : List LogEntry) (startDate : CivilDateTime)
    (toDate : Option CivilDateTime) (customRange : Bool) : List (String × Nat) × Int :=
  let duration := hours_duration startDate toDate customRange
  let init := (hour_span_keys startDate duration).foldl (fun m k => hmInsert m k 0) []
  let filled := entries.foldl (fun m e => hmBump m (entry_hour_key e)) init
  (filled, duration)

/-- Year-bucket keys pre-created by `fill_years` (lines 267–271): the
year keys of `start + i*365 days` for `i < duration`. -/
def year_code_span_keys (startDate : CivilDateTime) (duration : Int) : List String :=
  (List.range duration.toNat).map
    (fun i => yearKeyOf (dtAddDays startDate (Int.ofNat (i * 365))))

/-- `GraphHash::fill_years` (lines 254–282): duration is
`(num_days() / 365).max(1)` of a custom range or the default 10;
pre-create a zero bucket at each 365-day offset's year; count records
into existing buckets. -/
def years_duration (startDate : CivilDateTime) (toDate : Option CivilDateTime)
    (customRange : Bool) : Int :=
  match toDate, customRange with
  | some endDt, true => max ((num_days_between startDate endDt).tdiv 365) 1
  | _, _ => 10

def fill_years (entries : List LogEntry) (startDate : CivilDateTime)
    (toDate : Option CivilDateTime) (customRange : Bool) : List (String × Nat) × Int :=
  let duration := years_duration startDate toDate customRange
  let init := (year_code_span_keys startDate duration).foldl (fun m k => hmInsert m k 0) []
  let filled := entries.foldl (fun m e => hmBump m (entry_year_key e)) init
  (filled, duration)

/-- `GraphHash::new_with_range` dispatched to `fill_years` (lines 33–78):
same start-date and custom-range plumbing as the month dispatch. -/
def graph_years (log : CrunchLog) (fromDt toDt : Option CivilDateTime) :
    List (String × Nat) × Int :=
  if log.entries.isEmpty then ([], 0)
  else
    let startDate := match fromDt with
      | some f => f
      | none => entry_to_datetime (log.entries.headD LogEntry.new)
    fill_years log.entries startDate toDt (fromDt.isSome || toDt.isSome)

/-- Claim-side year span, modelled from the claim wording: the bucket
keys of `duration` consecutive years starting at the start point's
year. -/
def claim_year_span (startDate : CivilDateTime) (duration : Nat) : List String :=
  (List.range duration).map
    (fun i => String.mk (intDecimal (startDate.year + (i : Int))))

/-! ## Print mode and the RSyslog grammar
(`mode_print` of `src/bin/glancelog.rs` lines 207–228 and
`RSyslogParser` of `src/log_entry.rs` lines 130–206) -/

/-- Separator appended after the daemon: nothing when the daemon already
ends in a colon, otherwise a colon (`if entry.daemon.ends_with(':')`). -/
def daemon_sep (daemon : String) : List Char :=
  if daemon.data.getLast? == some ':' then [] else [':']

/-- Strip one leading `": "` or `" "` from the message
(`strip_prefix(": ").or_else(strip_prefix(" "))`). -/
def strip_msg (s : String) : String :=
  if [':', ' '].isPrefixOf s.data then String.mk (s.data.drop 2)
  else if [' '].isPrefixOf s.data then String.mk (s.data.drop 1)
  else s

/-- The timestamp text `{:04}-{:02}-{:02}T{:02}:{:02}:{:02}` of a record. -/
def ts_chars (e : LogEntry) : List Char :=
  intPad4 e.year ++ ['-'] ++ pad2 e.month ++ ['-'] ++ pad2 e.day ++ ['T'] ++
    pad2 e.hour ++ [':'] ++ pad2 e.minute ++ [':'] ++ pad2 e.second

/-- One output line of `mode_print`:
`{ts} {host} {daemon}{sep} {stripped message}`. -/
def mode_print_line (e : LogEntry) : String :=
  String.mk (ts_chars e ++ [' '] ++ e.host.data ++ [' '] ++ e.daemon.data ++
    daemon_sep e.daemon ++ [' '] ++ (strip_msg e.log_entry).data)

/-- `RSyslogParser::is_type`: the first whitespace token starts with
`\d{4}-\d{2}-\d{2}T`. -/
def ts_shape : List Char → Bool
  | a :: b :: c :: d :: '-' :: e :: f :: '-' :: g :: h :: 'T' :: _ =>
    a.isDigit && b.isDigit && c.isDigit && d.isDigit &&
      e.isDigit && f.isDigit && g.isDigit && h.isDigit
  | _ => false

/-- `RSyslogParser::parse` (lines 143–201): tokens are timestamp, host,
daemon, message; the timestamp splits on `T`, the date on `-`, the time
drops a timezone suffix and fraction and splits on `:`; numeric parsing
failures are errors (degraded to the sentinel by the `from_reader` loop),
fewer than three tokens yield the sentinel directly. -/
def rsyslog_parse (line : String) : Except String LogEntry :=
  let parts := splitWsStr line
  if parts.length < 3 then Except.ok (LogEntry.set_abnormal LogEntry.new line)
  else
    let timestamp_str := parts.getD 0 emptyStr
    let host := parts.getD 1 emptyStr
    let daemon := parts.getD 2 emptyStr
    let log_entry := joinSpaceStr (parts.drop 3)
    let dt_parts := splitCharStr 'T' timestamp_str
    if dt_parts.length ≠ 2 then Except.error ("Invalid timestamp format")
    else
      let date_str := dt_parts.getD 0 emptyStr
      let time_zone_str := dt_parts.getD 1 emptyStr
      let date_parts := splitCharStr '-' date_str
      if date_parts.length ≠ 3 then Except.error ("Invalid date format")
      else
        match parse_i32 (date_parts.getD 0 emptyStr),
            parse_u32 (date_parts.getD 1 emptyStr),
            parse_u32 (date_parts.getD 2 emptyStr) with
        | some year, some month, some day =>
          let time_str := (splitBy (fun x => x == '-' || x == '+') time_zone_str.data).headD []
          let time_str := (splitBy (fun x => x == '.') time_str).headD []
          let time_parts := (splitBy (fun x => x == ':') time_str).map String.mk
          if time_parts.length ≠ 3 then Except.error ("Invalid time format")
          else
            match parse_u32 (time_parts.getD 0 emptyStr),
                parse_u32 (time_parts.getD 1 emptyStr),
                parse_u32 (time_parts.getD 2 emptyStr) with
            | some hour, some minute, some second =>
              Except.ok { year := year, month := month, day := day, hour := hour,
                          minute := minute, second := second, host := host,
                          daemon := daemon, log_entry := log_entry }
            | _, _, _ => Except.error ("invalid digit found in string")
        | _, _, _ => Except.error ("invalid digit found in string")

/-- `RSyslogParser` as a capability value. -/
def rsyslog_format : LogFormat :=
  { is_type := fun line =>
      match splitWsStr line with
      | [] => false
      | p :: _ => ts_shape p.data,
    parse := rsyslog_parse,
    name := "RSyslog" }

/-- A string free of whitespace characters (token side conditions of the
round-trip statement). -/
def NoWhitespace (s : String) : Prop := ∀ c ∈ s.data, c.isWhitespace = false

/-- A message in canonical whitespace form: joining its own whitespace
tokens with single spaces reproduces it, and it does not begin with the
`": "` or `" "` text that `mode_print` strips. -/
def CanonicalMessage (s : String) : Prop :=
  joinSpaceStr (splitWsStr s) = s ∧
    [':', ' '].isPrefixOf s.data = false ∧ [' '].isPrefixOf s.data = false

/-- A character that is one of the ten decimal digits. -/
def DigitForm (c : Char) : Prop := ∃ d, d < 10 ∧ c = digitChar d

/-! ## Concrete fixtures used by counterexamples and witnesses -/

/-- Start date 2023-01-31 for the month-histogram counterexample. -/
def monthCexStart : CivilDateTime :=
  { year := 2023, month := 1, day := 31, hour := 0, minute := 0, second := 0 }

/-- A one-record log whose single record falls on 2023-01-31. -/
def monthCexLog : CrunchLog :=
  { entries := [{ year := 2023, month := 1, day := 31, hour := 0, minute := 0,
                  second := 0, host := "h", daemon := "d", log_entry := "m" }],
    parser_type := "RSyslog" }

/-- Start date 2020-01-01 for the year-histogram counterexample. -/
def yearCexStart : CivilDateTime :=
  { year := 2020, month := 1, day := 1, hour := 0, minute := 0, second := 0 }

/-- A one-record log whose single record falls in year 2029. -/
def yearCexLog : CrunchLog :=
  { entries := [{ year := 2029, month := 6, day := 15, hour := 0, minute := 0,
                  second := 0, host := "h", daemon := "d", log_entry := "m" }],
    parser_type := "RSyslog" }

/-- A one-record log holding a single abnormal sentinel record. -/
def hostCexLog : CrunchLog :=
  { entries := [LogEntry.set_abnormal LogEntry.new "boom"], parser_type := "Raw" }

/-- A syntactically valid RSyslog record whose daemon lacks a colon. -/
def roundCexEntry : LogEntry :=
  { year := 2020, month := 6, day := 24, hour := 17, minute := 56, second := 32,
    host := "host1", daemon := "sshd", log_entry := "hello" }

/-- A record satisfying every side condition of the amended round-trip
statement (daemon already colon-terminated, canonical message). -/
def roundWitEntry : LogEntry :=
  { year := 2021, month := 12, day := 3, hour := 4, minute := 5, second := 6,
    host := "h1", daemon := "cron:", log_entry := "job done" }

/-- Decidable equality of parse results, by cases on the constructors. -/
instance instDecEqExceptEntry : DecidableEq (Except String LogEntry) := fun a b =>
  match a, b with
  | Except.ok x, Except.ok y =>
    if h : x = y then isTrue (by rw [h]) else isFalse (by simp [h])
  | Except.error x, Except.error y =>
    if h : x = y then isTrue (by rw [h]) else isFalse (by simp [h])
  | Except.ok _, Except.error _ => isFalse (by simp)
  | Except.error _, Except.ok _ => isFalse (by simp)

/-! ## Lemmas on decimal digits and number parsing -/

theorem digitChar_props (d : Nat) (hd : d < 10) :
    (digitChar d).isDigit = true ∧ (digitChar d).toNat - 48 = d ∧
    (digitChar d).isWhitespace = false ∧ digitChar d ≠ 'T' ∧ digitChar d ≠ '-' ∧
    digitChar d ≠ '+' ∧ digitChar d ≠ ':' ∧ digitChar d ≠ '.' ∧ digitChar d ≠ ' ' := by
  interval_cases d <;> exact (by decide)

theorem digitForm_props {c : Char} (h : DigitForm c) :
    c.isDigit = true ∧ c.isWhitespace = false ∧ c ≠ 'T' ∧ c ≠ '-' ∧
    c ≠ '+' ∧ c ≠ ':' ∧ c ≠ '.' ∧ c ≠ ' ' := by
  obtain ⟨d, hd, rfl⟩ := h
  obtain ⟨h1, _, h3, h4, h5, h6, h7, h8, h9⟩ := digitChar_props d hd
  exact ⟨h1, h3, h4, h5, h6, h7, h8, h9⟩

theorem natDecimalAux_digitForm (fuel : Nat) :
    ∀ n, ∀ c ∈ natDecimalAux fuel n, DigitForm c := by
  induction fuel with
  | zero => intro n c hc; simp [natDecimalAux] at hc
  | succ fuel ih =>
    intro n c hc
    by_cases hlt : n < 10
    · simp [natDecimalAux, hlt] at hc
      exact ⟨n, hlt, hc⟩
    · simp [natDecimalAux, hlt] at hc
      rcases hc with hc | hc
      · exact ih (n / 10) c hc
      · exact ⟨n % 10, Nat.mod_lt n (by omega), hc⟩

theorem natDecimal_digitForm (n : Nat) : ∀ c ∈ natDecimal n, DigitForm c :=
  natDecimalAux_digitForm (n + 1) n

theorem natDecimalAux_ne_nil (fuel n : Nat) (h : 0 < fuel) :
    natDecimalAux fuel n ≠ [] := by
  cases fuel with
  | zero => omega
  | succ fuel =>
    by_cases hlt : n < 10 <;> simp [natDecimalAux, hlt]

theorem natDecimal_ne_nil (n : Nat) : natDecimal n ≠ [] :=
  natDecimalAux_ne_nil (n + 1) n (by omega)

theorem parseNatCore_append (xs : List Char) :
    ∀ ys acc, parseNatCore acc (xs ++ ys) =
      (parseNatCore acc xs).bind (fun v => parseNatCore v ys) := by
  induction xs with
  | nil => intro ys acc; simp [parseNatCore]
  | cons c cs ih =>
    intro ys acc
    by_cases hc : c.isDigit <;> simp [parseNatCore, hc, ih]

theorem parseNatCore_natDecimalAux (fuel : Nat) :
    ∀ n acc, n < fuel →
      parseNatCore acc (natDecimalAux fuel n) =
        some (acc * 10 ^ (natDecimalAux fuel n).length + n) := by
  induction fuel with
  | zero => omega
  | succ fuel ih =>
    intro n acc hn
    by_cases hlt : n < 10
    · obtain ⟨h1, h2, -⟩ := digitChar_props n hlt
      simp [natDecimalAux, hlt, parseNatCore, h1, h2, Nat.mul_comm]
    · have hdiv : n / 10 < n := Nat.div_lt_self (by omega) (by omega)
      have hfuel : n / 10 < fuel := by omega
      obtain ⟨h1, h2, -⟩ := digitChar_props (n % 10) (Nat.mod_lt n (by omega))
      simp only [natDecimalAux, if_neg hlt]
      rw [parseNatCore_append]
      rw [ih (n / 10) acc hfuel]
      simp only [Option.bind_some, parseNatCore, h1, if_pos, h2]
      have := Nat.div_add_mod n 10
      simp [List.length_append, pow_succ]
      ring_nf
      omega

theorem parseNatCore_natDecimal (n acc : Nat) :
    parseNatCore acc (natDecimal n) =
      some (acc * 10 ^ (natDecimal n).length + n) :=
  parseNatCore_natDecimalAux (n + 1) n acc (by omega)

theorem parseNatCore_zeros (k : Nat) :
    ∀ l, parseNatCore 0 (List.replicate k '0' ++ l) = parseNatCore 0 l := by
  induction k with
  | zero => intro l; simp
  | succ k ih =>
    intro l
    simp only [List.replicate_succ, List.cons_append]
    have : parseNatCore 0 ('0' :: (List.replicate k '0' ++ l)) =
        parseNatCore 0 (List.replicate k '0' ++ l) := by
      simp [parseNatCore]
    rw [this, ih]

theorem parseNatCore_padZeros_natDecimal (w n : Nat) :
    parseNatCore 0 (padZeros w (natDecimal n)) = some n := by
  unfold padZeros
  rw [parseNatCore_zeros, parseNatCore_natDecimal]
  simp

theorem padZeros_natDecimal_digitForm (w n : Nat) :
    ∀ c ∈ padZeros w (natDecimal n), DigitForm c := by
  intro c hc
  unfold padZeros at hc
  rcases List.mem_append.mp hc with hc | hc
  · have := List.eq_of_mem_replicate hc
    exact ⟨0, by omega, by simp [this, digitChar]⟩
  · exact natDecimal_digitForm n c hc

theorem padZeros_ne_nil (w n : Nat) : padZeros w (natDecimal n) ≠ [] := by
  unfold padZeros
  intro h
  rcases List.append_eq_nil.mp h with ⟨-, h2⟩
  exact natDecimal_ne_nil n h2

theorem parse_u32_digitForm {l : List Char} (hd : ∀ c ∈ l, DigitForm c) (hne : l ≠ []) :
    parse_u32 (String.mk l) =
      (parseNatCore 0 l).bind (fun v => if v < 2 ^ 32 then some v else none) := by
  match l, hne with
  | c :: cs, _ =>
    have hc := digitForm_props (hd c (by simp))
    simp only [parse_u32]
    simp only [if_neg hc.2.2.2.2.1, List.isEmpty_cons, Bool.false_eq_true, if_false]
    cases hp : parseNatCore 0 (c :: cs) <;> simp [hp]

theorem parse_u32_pad (w n : Nat) (h : n < 2 ^ 32) :
    parse_u32 (String.mk (padZeros w (natDecimal n))) = some n := by
  rw [parse_u32_digitForm (padZeros_natDecimal_digitForm w n) (padZeros_ne_nil w n)]
  rw [parseNatCore_padZeros_natDecimal]
  have h4 : n < 4294967296 := by norm_num at h; exact h
  simp [h4]

theorem parse_i32_digitForm {l : List Char} (hd : ∀ c ∈ l, DigitForm c) (hne : l ≠ []) :
    parse_i32 (String.mk l) =
      (parseNatCore 0 l).bind
        (fun v => if v < 2 ^ 31 then some ((v : Int)) else none) := by
  match l, hne with
  | c :: cs, _ =>
    have hc := digitForm_props (hd c (by simp))
    simp only [parse_i32]
    simp only [if_neg hc.2.2.2.1, if_neg hc.2.2.2.2.1, List.isEmpty_cons,
      Bool.false_eq_true, if_false]
    cases hp : parseNatCore 0 (c :: cs) <;> simp [hp]

theorem parse_i32_pad4 (n : Nat) (h : n < 2 ^ 31) :
    parse_i32 (String.mk (padZeros 4 (natDecimal n))) = some ((n : Int)) := by
  rw [parse_i32_digitForm (padZeros_natDecimal_digitForm 4 n) (padZeros_ne_nil 4 n)]
  rw [parseNatCore_padZeros_natDecimal]
  have h4 : n < 2147483648 := by norm_num at h; exact h
  simp [h4]

/-! ## Lemmas on splitting and whitespace words -/

theorem splitBy_ne_nil (p : Char → Bool) (l : List Char) : splitBy p l ≠ [] := by
  induction l with
  | nil => simp [splitBy]
  | cons c cs ih =>
    simp only [splitBy]
    by_cases hc : p c = true
    · simp [hc]
    · rw [if_neg hc]
      cases h : splitBy p cs with
      | nil => exact absurd h ih
      | cons w ws => simp

theorem splitBy_no_sep (p : Char → Bool) (l : List Char)
    (h : ∀ c ∈ l, p c = false) : splitBy p l = [l] := by
  induction l with
  | nil => rfl
  | cons c cs ih =>
    have hc : p c = false := h c (by simp)
    have hcs := ih (fun x hx => h x (by simp [hx]))
    simp [splitBy, hc, hcs]

theorem splitBy_append_sep (p : Char → Bool) (sep : Char) (hsep : p sep = true)
    (a b : List Char) (ha : ∀ c ∈ a, p c = false) :
    splitBy p (a ++ sep :: b) = a :: splitBy p b := by
  induction a with
  | nil => simp [splitBy, hsep]
  | cons x xs ih =>
    have hx : p x = false := ha x (by simp)
    have hxs := ih (fun c hc => ha c (by simp [hc]))
    simp [splitBy, hx, hxs]

theorem isEmpty_false_of_ne_nil {a : List Char} (h : a ≠ []) : a.isEmpty = false := by
  cases a with
  | nil => exact absurd rfl h
  | cons c cs => rfl

theorem wsWords_append_word (a b : List Char)
    (hnw : ∀ c ∈ a, c.isWhitespace = false) (hne : a ≠ []) :
    wsWords (a ++ ' ' :: b) = a :: wsWords b := by
  unfold wsWords
  rw [splitBy_append_sep Char.isWhitespace ' ' (by decide) a b hnw]
  simp [List.filter_cons, isEmpty_false_of_ne_nil hne]

theorem wsWords_single (a : List Char)
    (hnw : ∀ c ∈ a, c.isWhitespace = false) (hne : a ≠ []) : wsWords a = [a] := by
  unfold wsWords
  rw [splitBy_no_sep Char.isWhitespace a hnw]
  simp [List.filter_cons, isEmpty_false_of_ne_nil hne]

/-! ## Lemmas on the time filter -/

theorem string_mk_data (s : String) : String.mk s.data = s := rfl

theorem retain_eq_in_time_range (fromDt toDt : Option CivilDateTime) (e : LogEntry) :
    retain_entry fromDt toDt e = in_time_range fromDt toDt e := by
  unfold retain_entry in_time_range
  cases fromDt <;> cases toDt <;> simp [← decide_not, not_lt]

/-- C6: the time-range filter removes exactly the records whose
reconstructed timestamp falls outside the inclusive bounds (a record
whose timestamp equals a bound survives), keeps the survivors in their
relative order with unchanged field values (it is a `filter` of the
original entry list, hence a sublist), and is a no-op when no bound is
supplied. -/
theorem C6_time_filter (log : CrunchLog) (fromDt toDt : Option CivilDateTime) :
    (log.filter_by_time fromDt toDt).entries =
        log.entries.filter (in_time_range fromDt toDt) ∧
      (log.filter_by_time fromDt toDt).entries.Sublist log.entries ∧
      log.filter_by_time none none = log := by
  refine ⟨?_, ?_, ?_⟩
  · exact List.filter_congr (fun e _ => retain_eq_in_time_range fromDt toDt e)
  · exact List.filter_sublist _
  · unfold CrunchLog.filter_by_time
    rw [List.filter_eq_self.mpr (fun e _ => by simp [retain_entry])]

/-- C10: every abnormal sentinel record carries the fixed timestamp
1900-01-01 00:00:00, and filtering with any lower bound strictly after
that instant removes every sentinel record, whatever the upper bound. -/
theorem C10_sentinel_filter :
    (∀ (e0 : LogEntry) (raw : String),
        (LogEntry.set_abnormal e0 raw).year = 1900 ∧
        (LogEntry.set_abnormal e0 raw).month = 1 ∧
        (LogEntry.set_abnormal e0 raw).day = 1 ∧
        (LogEntry.set_abnormal e0 raw).hour = 0 ∧
        (LogEntry.set_abnormal e0 raw).minute = 0 ∧
        (LogEntry.set_abnormal e0 raw).second = 0) ∧
      ∀ (log : CrunchLog) (f : CivilDateTime) (toDt : Option CivilDateTime),
        toSecs sentinelInstant < toSecs f →
        ∀ e ∈ (log.filter_by_time (some f) toDt).entries, ¬ IsSentinelRecord e := by
  constructor
  · intro e0 raw; exact ⟨rfl, rfl, rfl, rfl, rfl, rfl⟩
  · intro log f toDt hf e he hsent
    obtain ⟨e0, raw, rfl⟩ := hsent
    have hret := (List.mem_filter.mp he).2
    rw [retain_eq_in_time_range] at hret
    have hdt : entry_to_datetime (LogEntry.set_abnormal e0 raw) = sentinelInstant := rfl
    simp only [in_time_range, hdt, Bool.and_eq_true, decide_eq_true_eq] at hret
    exact absurd hret.1 (not_le_of_lt hf)

/-- Concrete use of the sentinel-filter theorem: a bound one second past
the sentinel instant flushes a sentinel record out of a one-record log. -/
theorem C10_sentinel_filter_witness :
    toSecs sentinelInstant <
        toSecs { year := 1900, month := 1, day := 1, hour := 0, minute := 0, second := 1 } ∧
      ∀ e ∈ ((CrunchLog.mk [LogEntry.set_abnormal LogEntry.new ("x")] ("Raw")).filter_by_time
          (some { year := 1900, month := 1, day := 1, hour := 0, minute := 0, second := 1 })
          none).entries, ¬ IsSentinelRecord e :=
  ⟨by decide, C10_sentinel_filter.2 _ _ _ (by decide)⟩

/-! ## Lemmas on detection and ingestion -/

theorem findIdx?_lt_length {α : Type} (p : α → Bool) (l : List α) :
    ∀ i j, List.findIdx? p l i = some j → j < i + l.length := by
  induction l with
  | nil => intro i j h; simp [List.findIdx?] at h
  | cons a l ih =>
    intro i j h
    rw [List.findIdx?_cons] at h
    by_cases ha : p a = true
    · rw [if_pos ha] at h
      cases h
      simp
    · rw [if_neg ha] at h
      have := ih (i + 1) j h
      simp [List.length_cons]
      omega

theorem findIdx?_ext {α : Type} (p q : α → Bool) (l : List α)
    (h : ∀ x ∈ l, p x = q x) : ∀ i, List.findIdx? p l i = List.findIdx? q l i := by
  induction l with
  | nil => intro i; rfl
  | cons a l ih =>
    intro i
    rw [List.findIdx?_cons, List.findIdx?_cons, h a (by simp)]
    by_cases hq : q a = true
    · rw [if_pos hq, if_pos hq]
    · rw [if_neg hq, if_neg hq]
      exact ih (fun x hx => h x (by simp [hx])) (i + 1)

theorem detect_select_lt (scores : List Nat) (n : Nat) (h : scores ≠ []) :
    detect_select scores n < scores.length := by
  have hlen : 0 < scores.length := List.length_pos.mpr h
  simp only [detect_select]
  cases hfi : List.findIdx? (fun s => decide (n / 4 ≤ s) && s == List.foldl Nat.max 0 scores) scores with
  | some i =>
    have hlt := findIdx?_lt_length _ scores 0 i hfi
    show i < scores.length
    omega
  | none =>
    show scores.length - 1 < scores.length
    omega

theorem detect_format_lt (lines : List String) (formats : List LogFormat)
    (rand : List Nat) (h : formats ≠ []) :
    detect_format lines formats rand < formats.length := by
  unfold detect_format
  have hne : formats.map
      (fun f => ((List.range (Nat.min 10 lines.length)).map
        (fun k => lines.getD ((rand.getD k 0) % lines.length) emptyStr)).countP f.is_type) ≠ [] := by
    simpa using h
  have := detect_select_lt _ (Nat.min 10 lines.length) hne
  simpa using this

theorem getD_mem {α : Type} (l : List α) (n : Nat) (d : α) (h : n < l.length) :
    l.getD n d ∈ l := by
  rw [List.getD_eq_getElem l d h]
  exact List.getElem_mem h

/-- C1: whenever ingestion succeeds, the number of records equals the
number of input lines — every line yields exactly one record through the
winning parser, a parse failure degrading to the abnormal sentinel, with
no silent drops. -/
theorem C1_record_count (formats : List LogFormat) (rand : List Nat)
    (lines : List String) (log : CrunchLog) (hformats : formats ≠ [])
    (h : CrunchLog.from_reader formats rand lines = Except.ok log) :
    log.entries.length = lines.length ∧
      ∃ fmt ∈ formats, log.entries = lines.map (parse_or_abnormal fmt) := by
  unfold CrunchLog.from_reader at h
  by_cases hemp : lines.isEmpty
  · rw [if_pos hemp] at h
    exact absurd h (by simp)
  · rw [if_neg hemp] at h
    have hwin : formats.getD (detect_format lines formats rand) raw_format ∈ formats :=
      getD_mem formats _ raw_format (detect_format_lt lines formats rand hformats)
    injection h with h
    subst h
    exact ⟨by simp, _, hwin, rfl⟩

/-- Concrete use of the record-count theorem on a one-line batch parsed
by the raw parser. -/
theorem C1_record_count_witness :
    (CrunchLog.mk [LogEntry.set_abnormal LogEntry.new ("hello")] ("Raw")).entries.length =
        (["hello"] : List String).length ∧
      ∃ fmt ∈ [raw_format],
        (CrunchLog.mk [LogEntry.set_abnormal LogEntry.new ("hello")] ("Raw")).entries =
          (["hello"] : List String).map (parse_or_abnormal fmt) :=
  C1_record_count [raw_format] [] ["hello"] _ (by simp) (by rfl)

/-- C8: an empty input batch fails with the fatal "no data" error and no
log is produced; every non-empty batch succeeds. -/
theorem C8_empty_input (formats : List LogFormat) (rand : List Nat) :
    CrunchLog.from_reader formats rand [] = Except.error ("No data found") ∧
      ∀ lines : List String, lines ≠ [] →
        ∃ log, CrunchLog.from_reader formats rand lines = Except.ok log := by
  constructor
  · rfl
  · intro lines hne
    unfold CrunchLog.from_reader
    rw [if_neg (by simpa [List.isEmpty_iff] using hne)]
    exact ⟨_, rfl⟩

/-- Concrete use of the ingestion theorem on a one-line batch. -/
theorem C8_empty_input_witness :
    ∃ log, CrunchLog.from_reader [raw_format] [] ["x"] = Except.ok log :=
  (C8_empty_input [raw_format] []).2 ["x"] (by simp)

/-- C3 (amended): format selection picks the first registry index whose
score attains the maximum, provided the maximum reaches the integer
quotient `sampleSize / 4`; otherwise it falls back to the last registry
index (the raw parser).  This is `claim_select_floor`; the original
claim's exact one-quarter threshold (`claim_select_exact`) differs. -/
theorem C3_detect_threshold_amended (scores : List Nat) (sampleSize : Nat) :
    detect_select scores sampleSize = claim_select_floor scores sampleSize := by
  simp only [detect_select, claim_select_floor]
  by_cases hthr : sampleSize / 4 ≤ List.foldl Nat.max 0 scores
  · rw [if_pos hthr]
    have hext : List.findIdx?
        (fun s => decide (sampleSize / 4 ≤ s) && s == List.foldl Nat.max 0 scores) scores 0 =
        List.findIdx? (fun s => s == scores.foldl Nat.max 0) scores 0 := by
      apply findIdx?_ext
      intro x hx
      by_cases hxm : x = scores.foldl Nat.max 0
      · subst hxm; simp [hthr]
      · simp [hxm]
    rw [hext]
    cases List.findIdx? (fun s => s == scores.foldl Nat.max 0) scores 0 <;> simp
  · rw [if_neg hthr]
    have hnone : List.findIdx?
        (fun s => decide (sampleSize / 4 ≤ s) && s == List.foldl Nat.max 0 scores) scores 0 = none := by
      apply List.findIdx?_eq_none_iff.mpr
      intro x hx
      by_cases hxm : x = scores.foldl Nat.max 0
      · subst hxm; simp [hthr]
      · simp [hxm]
    rw [hnone]

/-- Counterexample to C3 as stated: with sample size 10 and top score 2,
the score is below one quarter of the sample size (2 < 10/4 exactly), so
the claim demands the raw fallback (index 10); the code accepts the
first maximal score against the integer threshold `10 / 4 = 2` and
selects index 0. -/
theorem C3_detect_threshold_cex :
    detect_select [2, 0, 0, 0, 0, 0, 0, 0, 0, 0, 0] 10 = 0 ∧
      claim_select_exact [2, 0, 0, 0, 0, 0, 0, 0, 0, 0, 0] 10 = 10 := by decide

/-! ## Lemmas on ranking order -/

theorem rank_le_trans (a b c : String × Nat × List LogEntry)
    (hab : rank_le a b = true) (hbc : rank_le b c = true) : rank_le a c = true := by
  simp only [rank_le, Bool.or_eq_true, Bool.and_eq_true, decide_eq_true_eq,
    beq_iff_eq] at hab hbc ⊢
  rcases hab with h1 | ⟨h1, h2⟩ <;> rcases hbc with h3 | ⟨h3, h4⟩
  · exact Or.inl (by omega)
  · exact Or.inl (by omega)
  · exact Or.inl (by omega)
  · exact Or.inr ⟨by omega, le_trans h2 h4⟩

theorem rank_le_total (a b : String × Nat × List LogEntry) :
    (rank_le a b || rank_le b a) = true := by
  simp only [rank_le, Bool.or_eq_true, Bool.and_eq_true, decide_eq_true_eq, beq_iff_eq]
  rcases Nat.lt_trichotomy a.2.1 b.2.1 with h | h | h
  · exact Or.inr (Or.inl h)
  · rcases le_total a.1 b.1 with hk | hk
    · exact Or.inl (Or.inr ⟨h, hk⟩)
    · exact Or.inr (Or.inr ⟨h.symm, hk⟩)
  · exact Or.inl (Or.inl h)

/-- C5: the displayed ranking is descending by occurrence count, with
ties between equal counts broken by ascending lexicographic order of the
keys: any row is followed only by rows of smaller count, or of equal
count and key not smaller. -/
theorem C5_ranking_order (h : SuperHash) :
    List.Pairwise
      (fun a b : String × Nat × List LogEntry =>
        b.2.1 < a.2.1 ∨ (a.2.1 = b.2.1 ∧ a.1 ≤ b.1))
      h.displayed_rows := by
  have hs := @List.sorted_mergeSort _ rank_le rank_le_trans rank_le_total h.data
  have hp : List.Pairwise
      (fun a b : String × Nat × List LogEntry =>
        b.2.1 < a.2.1 ∨ (a.2.1 = b.2.1 ∧ a.1 ≤ b.1))
      (h.data.mergeSort rank_le) := by
    refine hs.imp ?_
    intro a b hab
    simpa only [rank_le, Bool.or_eq_true, Bool.and_eq_true, decide_eq_true_eq,
      beq_iff_eq] using hab
  exact List.Pairwise.sublist (List.filter_sublist _) hp

/-! ## Lemmas on aggregation sums (group-by-host) -/

theorem sumDataNonMarker_cons (kv : String × Nat × List LogEntry)
    (rest : List (String × Nat × List LogEntry)) :
    sumDataNonMarker (kv :: rest) =
      (if kv.1 = markerStr then 0 else kv.2.1) + sumDataNonMarker rest := by
  by_cases h : kv.1 = markerStr <;> simp [sumDataNonMarker, List.filter_cons, h]

theorem incData_sumNonMarker (m : List (String × Nat × List LogEntry))
    (k : String) (e : LogEntry) :
    sumDataNonMarker (incData m k e) =
      sumDataNonMarker m + (if k = markerStr then 0 else 1) := by
  induction m with
  | nil =>
    by_cases hk : k = markerStr <;>
      simp [incData, sumDataNonMarker_cons, sumDataNonMarker, hk]
  | cons kv rest ih =>
    by_cases hbeq : kv.1 = k
    · have hb : (kv.1 == k) = true := beq_iff_eq.mpr hbeq
      simp only [incData, hb, if_true]
      rw [sumDataNonMarker_cons, sumDataNonMarker_cons]
      by_cases hk : k = markerStr
      · have hkm : kv.1 = markerStr := hbeq.trans hk
        simp [hkm, hk]
      · have hkm : ¬ kv.1 = markerStr := fun hx => hk (hbeq.symm.trans hx)
        simp only [if_neg hkm, if_neg hk]
        omega
    · have hb : (kv.1 == k) = false := beq_eq_false_iff_ne.mpr hbeq
      simp only [incData, hb, Bool.false_eq_true, if_false]
      rw [sumDataNonMarker_cons, sumDataNonMarker_cons, ih]
      omega

theorem fill_host_sum (es : List LogEntry) :
    ∀ h : SuperHash,
      sumDataNonMarker
          (es.foldl (fun acc entry => acc.increment (acc.filter entry.host) entry) h).data =
        sumDataNonMarker h.data +
          es.countP (fun e => !(h.filter e.host == markerStr)) := by
  induction es with
  | nil => intro h; simp
  | cons e es ih =>
    intro h
    simp only [List.foldl_cons]
    rw [ih (h.increment (h.filter e.host) e)]
    have hdta : (h.increment (h.filter e.host) e).data = incData h.data (h.filter e.host) e := rfl
    have hflt : (h.increment (h.filter e.host) e).filter = h.filter := rfl
    rw [hdta, hflt, incData_sumNonMarker, List.countP_cons]
    by_cases hk : h.filter e.host = markerStr
    · simp [hk]
    · simp only [if_neg hk, beq_eq_false_iff_ne.mpr hk, Bool.not_false, if_pos]
      omega

/-- C4 (amended): in group-by-host mode the sum of counts across the
table equals the number of records — sentinel or not — whose scrubbed
host value is not the reserved marker.  (Sentinel records carry the
marker as host, so whenever the scrubber fixes the marker this is the
claim's count of non-sentinel records with non-marker scrubbed hosts;
a scrubber that moves the marker makes the original claim fail.) -/
theorem C4_host_aggregation_amended (log : CrunchLog) (filterF : String → String) :
    sumCounts (SuperHash.from_log log HashMode.Host filterF) =
      log.entries.countP (fun e => !(filterF e.host == markerStr)) := by
  have hfill := fill_host_sum log.entries (SuperHash.new filterF)
  have hz : sumDataNonMarker (SuperHash.new filterF).data = 0 := rfl
  rw [hz, Nat.zero_add] at hfill
  exact hfill

/-- Counterexample to C4 as stated: a log holding one abnormal sentinel
record and a scrubber sending every string to a non-marker value.  The
table keeps the sentinel under key other than the marker, so the count
sum is 1, while the claim's count of non-sentinel records with
non-marker scrubbed hosts is 0. -/
theorem C4_host_aggregation_cex :
    sumCounts (SuperHash.from_log hostCexLog HashMode.Host (fun _ => "x")) ≠
      claim_host_count hostCexLog (fun _ => "x") := by decide

/-! ## Lemmas on the count/representatives invariant -/

theorem incData_count_inv (m : List (String × Nat × List LogEntry))
    (k : String) (e : LogEntry)
    (hm : ∀ kv ∈ m, kv.2.1 = kv.2.2.length) :
    ∀ kv ∈ incData m k e, kv.2.1 = kv.2.2.length := by
  induction m with
  | nil =>
    intro kv hkv
    simp only [incData, List.mem_singleton] at hkv
    subst hkv
    rfl
  | cons kv0 rest ih =>
    intro kv hkv
    by_cases hb : (kv0.1 == k) = true
    · simp only [incData, hb, if_true, List.mem_cons] at hkv
      rcases hkv with h | h
      · subst h
        have := hm kv0 (by simp)
        simp [this]
      · exact hm kv (by simp [h])
    · simp only [incData, hb, Bool.false_eq_true, if_false, List.mem_cons] at hkv
      rcases hkv with h | h
      · rw [h]
        exact hm kv0 (by simp)
      · exact ih (fun kv2 hkv2 => hm kv2 (by simp [hkv2])) kv h

theorem foldl_increment_inv {α : Type} (es : List α)
    (key : SuperHash → α → String) (ent : SuperHash → α → LogEntry) :
    ∀ h : SuperHash, h.CountInvariant →
      (es.foldl (fun acc a => acc.increment (key acc a) (ent acc a)) h).CountInvariant := by
  induction es with
  | nil => intro h hh; exact hh
  | cons a es ih =>
    intro h hh
    simp only [List.foldl_cons]
    exact ih _ (incData_count_inv h.data (key h a) (ent h a) hh)

theorem foldl_range_increment_inv (sm : List (String × Nat)) :
    ∀ h : SuperHash, h.CountInvariant →
      (sm.foldl
        (fun acc kv =>
          (List.range kv.2).foldl
            (fun acc2 _ => acc2.increment kv.1 { LogEntry.new with log_entry := kv.1 }) acc)
        h).CountInvariant := by
  induction sm with
  | nil => intro h hh; exact hh
  | cons kv sm ih =>
    intro h hh
    simp only [List.foldl_cons]
    exact ih _ (foldl_increment_inv (List.range kv.2) (fun _ _ => kv.1)
      (fun _ _ => { LogEntry.new with log_entry := kv.1 }) h hh)

theorem from_log_inv (log : CrunchLog) (mode : HashMode) (filterF : String → String) :
    (SuperHash.from_log log mode filterF).CountInvariant := by
  have hbase : (SuperHash.new filterF).CountInvariant := by
    intro kv hkv
    simp [SuperHash.new] at hkv
  have hfill :
      (match mode with
        | HashMode.Hash => (SuperHash.new filterF).fill_hash log
        | HashMode.Daemon => (SuperHash.new filterF).fill_daemon log
        | HashMode.Host => (SuperHash.new filterF).fill_host log
        | HashMode.WordCount => (SuperHash.new filterF).fill_wordcount log).CountInvariant := by
    cases mode
    · exact foldl_increment_inv log.entries
        (fun acc e => acc.filter (e.daemon ++ " " ++ e.log_entry)) (fun _ e => e) _ hbase
    · exact foldl_increment_inv log.entries
        (fun acc e => acc.filter e.daemon) (fun _ e => e) _ hbase
    · exact foldl_increment_inv log.entries
        (fun acc e => acc.filter e.host) (fun _ e => e) _ hbase
    · exact foldl_range_increment_inv _ _ hbase
  intro kv hkv
  exact hfill kv (List.mem_of_mem_filter hkv)

/-- C9: every table binding stores exactly as many representative
records as its occurrence counter says: `increment` preserves the
invariant, and every table built by `from_log` in any mode and then
subjected to any further sequence of increments satisfies it. -/
theorem C9_count_invariant :
    (∀ (h : SuperHash) (key : String) (entry : LogEntry),
        h.CountInvariant → (h.increment key entry).CountInvariant) ∧
      ∀ (log : CrunchLog) (mode : HashMode) (filterF : String → String)
        (incs : List (String × LogEntry)),
        (apply_increments incs (SuperHash.from_log log mode filterF)).CountInvariant := by
  constructor
  · intro h key entry hh
    exact incData_count_inv h.data key entry hh
  · intro log mode filterF incs
    exact foldl_increment_inv incs (fun _ kv => kv.1) (fun _ kv => kv.2) _
      (from_log_inv log mode filterF)

/-- Concrete use of the invariant theorem: one increment on an empty
table with the identity scrubber. -/
theorem C9_count_invariant_witness :
    (SuperHash.increment (SuperHash.new (fun s => s)) markerStr LogEntry.new).CountInvariant :=
  C9_count_invariant.1 _ _ _ (by intro kv hkv; simp [SuperHash.new] at hkv)

/-! ## Lemmas on histogram buckets -/

theorem hmContains_nil (q : String) : hmContains [] q = false := rfl

theorem hmContains_cons (kv : String × Nat) (rest : List (String × Nat)) (q : String) :
    hmContains (kv :: rest) q = (kv.1 == q || hmContains rest q) := rfl

theorem hmContains_hmInsert (m : List (String × Nat)) (k : String) (v : Nat) (q : String) :
    hmContains (hmInsert m k v) q = true ↔ (q = k ∨ hmContains m q = true) := by
  induction m with
  | nil =>
    rw [show hmInsert [] k v = [(k, v)] from rfl, hmContains_cons, hmContains_nil]
    simp only [Bool.or_false, beq_iff_eq, Bool.false_eq_true, or_false]
    exact eq_comm
  | cons kv rest ih =>
    by_cases hb : (kv.1 == k) = true
    · rw [show hmInsert (kv :: rest) k v = (k, v) :: rest from by simp [hmInsert, hb]]
      rw [hmContains_cons, hmContains_cons]
      have hbe : kv.1 = k := beq_iff_eq.mp hb
      simp only [hbe, Bool.or_eq_true, beq_iff_eq]
      constructor
      · rintro (h | h)
        · exact Or.inl h.symm
        · exact Or.inr (Or.inr h)
      · rintro (h | h | h)
        · exact Or.inl h.symm
        · exact Or.inl h
        · exact Or.inr h
    · rw [show hmInsert (kv :: rest) k v = kv :: hmInsert rest k v from by simp [hmInsert, hb]]
      rw [hmContains_cons, hmContains_cons]
      simp only [Bool.or_eq_true]
      rw [ih]
      tauto

theorem hmContains_foldl_insert (keys : List String) :
    ∀ (m0 : List (String × Nat)) (q : String),
      hmContains (keys.foldl (fun m k => hmInsert m k 0) m0) q = true ↔
        (q ∈ keys ∨ hmContains m0 q = true) := by
  induction keys with
  | nil => intro m0 q; simp
  | cons k keys ih =>
    intro m0 q
    simp only [List.foldl_cons]
    rw [ih, hmContains_hmInsert]
    simp only [List.mem_cons]
    tauto

theorem hmInsert_zero_values (m : List (String × Nat)) (k : String)
    (hm : ∀ kv ∈ m, kv.2 = 0) : ∀ kv ∈ hmInsert m k 0, kv.2 = 0 := by
  induction m with
  | nil =>
    intro kv hkv
    simp only [hmInsert, List.mem_singleton] at hkv
    rw [hkv]
  | cons kv0 rest ih =>
    intro kv hkv
    by_cases hb : (kv0.1 == k) = true
    · simp only [hmInsert, hb, if_true, List.mem_cons] at hkv
      rcases hkv with h | h
      · rw [h]
      · exact hm kv (by simp [h])
    · simp only [hmInsert, hb, Bool.false_eq_true, if_false, List.mem_cons] at hkv
      rcases hkv with h | h
      · rw [h]; exact hm kv0 (by simp)
      · exact ih (fun kv2 h2 => hm kv2 (by simp [h2])) kv h

theorem foldl_insert_zero_values (keys : List String) :
    ∀ m0, (∀ kv ∈ m0, kv.2 = 0) →
      ∀ kv ∈ keys.foldl (fun m k => hmInsert m k 0) m0, kv.2 = 0 := by
  induction keys with
  | nil => intro m0 hm; exact hm
  | cons k keys ih =>
    intro m0 hm
    simp only [List.foldl_cons]
    exact ih _ (hmInsert_zero_values m0 k hm)

theorem hmSum_zero_values (m : List (String × Nat)) (hm : ∀ kv ∈ m, kv.2 = 0) :
    hmSum m = 0 := by
  induction m with
  | nil => rfl
  | cons kv rest ih =>
    have h0 := hm kv (by simp)
    have hrest := ih (fun kv2 h2 => hm kv2 (by simp [h2]))
    simp only [hmSum, List.map_cons, List.sum_cons] at hrest ⊢
    omega

theorem hmSum_hmBump (m : List (String × Nat)) (k : String) :
    hmSum (hmBump m k) = hmSum m + (if hmContains m k = true then 1 else 0) := by
  induction m with
  | nil => rfl
  | cons kv rest ih =>
    by_cases hb : (kv.1 == k) = true
    · have hc : hmContains (kv :: rest) k = true := by
        rw [hmContains_cons]; simp [hb]
      simp only [hmBump, hb, if_true, hc, if_pos]
      simp only [hmSum, List.map_cons, List.sum_cons]
      omega
    · have hc : hmContains (kv :: rest) k = hmContains rest k := by
        rw [hmContains_cons]; simp [hb]
      simp only [hmBump, hb, Bool.false_eq_true, if_false]
      simp only [hmSum, List.map_cons, List.sum_cons] at ih ⊢
      rw [hc, ih]
      omega

theorem hmContains_hmBump (m : List (String × Nat)) (k q : String) :
    hmContains (hmBump m k) q = hmContains m q := by
  induction m with
  | nil => rfl
  | cons kv rest ih =>
    by_cases hb : (kv.1 == k) = true
    · simp only [hmBump, hb, if_true]
      rw [hmContains_cons, hmContains_cons]
    · simp only [hmBump, hb, Bool.false_eq_true, if_false]
      rw [hmContains_cons, hmContains_cons, ih]

theorem hmSum_foldl_bump (keyOf : LogEntry → String) (es : List LogEntry) :
    ∀ m0 : List (String × Nat),
      hmSum (es.foldl (fun m e => hmBump m (keyOf e)) m0) =
        hmSum m0 + es.countP (fun e => hmContains m0 (keyOf e)) := by
  induction es with
  | nil => intro m0; simp
  | cons e es ih =>
    intro m0
    simp only [List.foldl_cons]
    rw [ih (hmBump m0 (keyOf e)), hmSum_hmBump, List.countP_cons]
    have hcc : es.countP (fun e2 => hmContains (hmBump m0 (keyOf e)) (keyOf e2)) =
        es.countP (fun e2 => hmContains m0 (keyOf e2)) :=
      List.countP_congr (fun e2 _ => by rw [hmContains_hmBump])
    rw [hcc]
    by_cases hk : hmContains m0 (keyOf e) = true <;> simp [hk] <;> omega

theorem hmContains_foldl_bump (keyOf : LogEntry → String) (es : List LogEntry) :
    ∀ (m0 : List (String × Nat)) (q : String),
      hmContains (es.foldl (fun m e => hmBump m (keyOf e)) m0) q = hmContains m0 q := by
  induction es with
  | nil => intro m0 q; rfl
  | cons e es ih =>
    intro m0 q
    simp only [List.foldl_cons]
    rw [ih, hmContains_hmBump]

theorem histogram_fill_spec (keys : List String) (keyOf : LogEntry → String)
    (entries : List LogEntry) :
    hmSum (entries.foldl (fun m e => hmBump m (keyOf e))
        (keys.foldl (fun m k => hmInsert m k 0) [])) =
      entries.countP (fun e => decide (keyOf e ∈ keys)) ∧
    ∀ k ∈ keys,
      hmContains (entries.foldl (fun m e => hmBump m (keyOf e))
        (keys.foldl (fun m k => hmInsert m k 0) [])) k = true := by
  constructor
  · rw [hmSum_foldl_bump]
    have hz : hmSum (keys.foldl (fun m k => hmInsert m k 0) []) = 0 :=
      hmSum_zero_values _ (foldl_insert_zero_values keys [] (by simp))
    rw [hz, Nat.zero_add]
    apply List.countP_congr
    intro e he
    constructor
    · intro h
      rcases (hmContains_foldl_insert keys [] (keyOf e)).mp h with h2 | h2
      · simpa using h2
      · rw [hmContains_nil] at h2; exact absurd h2 (by simp)
    · intro h
      exact (hmContains_foldl_insert keys [] (keyOf e)).mpr (Or.inl (by simpa using h))
  · intro k hk
    rw [hmContains_foldl_bump]
    exact (hmContains_foldl_insert keys [] k).mpr (Or.inl hk)

/-- C2 (amended): for every granularity the sum of all bucket counts
equals the number of records whose truncated timestamp key lies in the
pre-created bucket set, and every pre-created key exists in the map even
with a zero count; records whose key is outside the set are silently
excluded.  For second, minute, hour and day granularity the pre-created
set is exactly the duration consecutive units starting at the start
point, as claimed; for month granularity it is the set of month keys at
the code's approximated day offsets `(i*365)/12 + 1`
(`month_code_span_keys`) and for year granularity the set of year keys
at the offsets `i*365` days (`year_code_span_keys`), which need not be
consecutive units and can miss units of the claimed consecutive span. -/
theorem C2_histogram_buckets (entries : List LogEntry) (startDate : CivilDateTime)
    (toDate : Option CivilDateTime) (customRange : Bool) :
    (hmSum (fill_seconds entries startDate toDate customRange).1 =
        entries.countP
          (fun e => decide (entry_sec_key e ∈
            sec_span_keys startDate (secs_duration startDate toDate customRange)))) ∧
      (∀ k ∈ sec_span_keys startDate (secs_duration startDate toDate customRange),
        hmContains (fill_seconds entries startDate toDate customRange).1 k = true) ∧
      (hmSum (fill_minutes entries startDate toDate customRange).1 =
        entries.countP
          (fun e => decide (entry_min_key e ∈
            min_span_keys startDate (mins_duration startDate toDate customRange)))) ∧
      (∀ k ∈ min_span_keys startDate (mins_duration startDate toDate customRange),
        hmContains (fill_minutes entries startDate toDate customRange).1 k = true) ∧
      (hmSum (fill_hours entries startDate toDate customRange).1 =
        entries.countP
          (fun e => decide (entry_hour_key e ∈
            hour_span_keys startDate (hours_duration startDate toDate customRange)))) ∧
      (∀ k ∈ hour_span_keys startDate (hours_duration startDate toDate customRange),
        hmContains (fill_hours entries startDate toDate customRange).1 k = true) ∧
      (hmSum (fill_days entries startDate toDate customRange).1 =
        entries.countP
          (fun e => decide (entry_day_key e ∈
            day_span_keys startDate (days_duration startDate toDate customRange)))) ∧
      (∀ k ∈ day_span_keys startDate (days_duration startDate toDate customRange),
        hmContains (fill_days entries startDate toDate customRange).1 k = true) ∧
      (hmSum (fill_months entries startDate toDate customRange).1 =
        entries.countP
          (fun e => decide (entry_month_key e ∈
            month_code_span_keys startDate (months_duration startDate toDate customRange)))) ∧
      (∀ k ∈ month_code_span_keys startDate (months_duration startDate toDate customRange),
        hmContains (fill_months entries startDate toDate customRange).1 k = true) ∧
      (hmSum (fill_years entries startDate toDate customRange).1 =
        entries.countP
          (fun e => decide (entry_year_key e ∈
            year_code_span_keys startDate (years_duration startDate toDate customRange)))) ∧
      (∀ k ∈ year_code_span_keys startDate (years_duration startDate toDate customRange),
        hmContains (fill_years entries startDate toDate customRange).1 k = true) := by
  refine ⟨?_, ?_, ?_, ?_, ?_, ?_, ?_, ?_, ?_, ?_, ?_, ?_⟩
  · exact (histogram_fill_spec
      (sec_span_keys startDate (secs_duration startDate toDate customRange))
      entry_sec_key entries).1
  · exact (histogram_fill_spec
      (sec_span_keys startDate (secs_duration startDate toDate customRange))
      entry_sec_key entries).2
  · exact (histogram_fill_spec
      (min_span_keys startDate (mins_duration startDate toDate customRange))
      entry_min_key entries).1
  · exact (histogram_fill_spec
      (min_span_keys startDate (mins_duration startDate toDate customRange))
      entry_min_key entries).2
  · exact (histogram_fill_spec
      (hour_span_keys startDate (hours_duration startDate toDate customRange))
      entry_hour_key entries).1
  · exact (histogram_fill_spec
      (hour_span_keys startDate (hours_duration startDate toDate customRange))
      entry_hour_key entries).2
  · exact (histogram_fill_spec
      (day_span_keys startDate (days_duration startDate toDate customRange))
      entry_day_key entries).1
  · exact (histogram_fill_spec
      (day_span_keys startDate (days_duration startDate toDate customRange))
      entry_day_key entries).2
  · exact (histogram_fill_spec
      (month_code_span_keys startDate (months_duration startDate toDate customRange))
      entry_month_key entries).1
  · exact (histogram_fill_spec
      (month_code_span_keys startDate (months_duration startDate toDate customRange))
      entry_month_key entries).2
  · exact (histogram_fill_spec
      (year_code_span_keys startDate (years_duration startDate toDate customRange))
      entry_year_key entries).1
  · exact (histogram_fill_spec
      (year_code_span_keys startDate (years_duration startDate toDate customRange))
      entry_year_key entries).2

/-- Concrete use of the bucket theorem: the first day bucket of a
default 31-day histogram exists with a zero count. -/
theorem C2_histogram_buckets_witness :
    dayKeyOf (dtAddDays sentinelInstant (Int.ofNat 0)) ∈
        day_span_keys sentinelInstant (days_duration sentinelInstant none false) ∧
      hmContains (fill_days [] sentinelInstant none false).1
        (dayKeyOf (dtAddDays sentinelInstant (Int.ofNat 0))) = true :=
  ⟨by decide,
    (C2_histogram_buckets [] sentinelInstant none false).2.2.2.2.2.2.2.1 _ (by decide)⟩

/-- Counterexample to C2 as stated, in the two granularities whose
buckets sit at approximated day offsets.  Months: with the default
12-month window starting at 2023-01-31, the claim's span of 12
consecutive months contains the key `202301`, but the offsets
`(i*365)/12 + 1` days pre-create buckets starting at `202302`; the start
month's bucket is missing and the log's single January record is
silently dropped (all bucket counts remain zero).  Years: with the
default 10-year window starting at 2020-01-01, the claim's span of 10
consecutive years contains `2029`, but the offsets `i*365` days only
reach years 2020–2028 (the leap day makes the first two offsets share
2020); the log's single 2029 record is silently dropped. -/
theorem C2_histogram_buckets_cex :
    (("202301" : String) ∈ claim_month_span monthCexStart 12 ∧
      (graph_months monthCexLog none none).2 = 12 ∧
      hmContains (graph_months monthCexLog none none).1 ("202301") = false ∧
      hmSum (graph_months monthCexLog none none).1 = 0) ∧
    (("2029" : String) ∈ claim_year_span yearCexStart 10 ∧
      (graph_years yearCexLog (some yearCexStart) none).2 = 10 ∧
      hmContains (graph_years yearCexLog (some yearCexStart) none).1 ("2029") = false ∧
      hmSum (graph_years yearCexLog (some yearCexStart) none).1 = 0) := by decide

/-! ## Lemmas on print-mode output and RSyslog re-parsing -/

theorem string_data_mk (l : List Char) : (String.mk l).data = l := rfl

theorem pad2_digitForm (n : Nat) : ∀ c ∈ pad2 n, DigitForm c :=
  padZeros_natDecimal_digitForm 2 n

theorem pad2_ne_nil (n : Nat) : pad2 n ≠ [] :=
  padZeros_ne_nil 2 n

theorem intPad4_chars (i : Int) : ∀ c ∈ intPad4 i, DigitForm c ∨ c = '-' := by
  intro c hc
  unfold intPad4 at hc
  by_cases h : i < 0
  · rw [if_pos h] at hc
    rcases List.mem_cons.mp hc with h2 | h2
    · exact Or.inr h2
    · exact Or.inl (padZeros_natDecimal_digitForm 3 i.natAbs c h2)
  · rw [if_neg h] at hc
    exact Or.inl (padZeros_natDecimal_digitForm 4 i.toNat c hc)

theorem intPad4_ne_nil (i : Int) : intPad4 i ≠ [] := by
  unfold intPad4
  by_cases h : i < 0
  · simp [h]
  · simp only [h, if_false]
    exact padZeros_ne_nil 4 i.toNat

theorem ts_chars_classes (e : LogEntry) :
    ∀ c ∈ ts_chars e, DigitForm c ∨ c = '-' ∨ c = 'T' ∨ c = ':' := by
  intro c hc
  unfold ts_chars at hc
  simp only [List.append_assoc, List.mem_append, List.mem_singleton] at hc
  rcases hc with h | h | h | h | h | h | h | h | h | h | h
  · rcases intPad4_chars e.year c h with h2 | h2
    · exact Or.inl h2
    · exact Or.inr (Or.inl h2)
  · exact Or.inr (Or.inl h)
  · exact Or.inl (pad2_digitForm e.month c h)
  · exact Or.inr (Or.inl h)
  · exact Or.inl (pad2_digitForm e.day c h)
  · exact Or.inr (Or.inr (Or.inl h))
  · exact Or.inl (pad2_digitForm e.hour c h)
  · exact Or.inr (Or.inr (Or.inr h))
  · exact Or.inl (pad2_digitForm e.minute c h)
  · exact Or.inr (Or.inr (Or.inr h))
  · exact Or.inl (pad2_digitForm e.second c h)

theorem ts_chars_no_ws (e : LogEntry) : ∀ c ∈ ts_chars e, c.isWhitespace = false := by
  intro c hc
  rcases ts_chars_classes e c hc with h | h | h | h
  · exact (digitForm_props h).2.1
  · rw [h]; decide
  · rw [h]; decide
  · rw [h]; decide

theorem ts_chars_ne_nil (e : LogEntry) : ts_chars e ≠ [] := by
  unfold ts_chars
  intro h
  rcases List.append_eq_nil.mp (List.append_eq_nil.mp
    (List.append_eq_nil.mp (List.append_eq_nil.mp (List.append_eq_nil.mp
      (List.append_eq_nil.mp (List.append_eq_nil.mp (List.append_eq_nil.mp
        (List.append_eq_nil.mp (List.append_eq_nil.mp h).1).1).1).1).1).1).1).1).1 with ⟨h1, -⟩
  exact intPad4_ne_nil e.year h1

theorem mode_print_line_data (e : LogEntry)
    (hdae2 : e.daemon.data.getLast? = some ':')
    (hmsg2 : [':', ' '].isPrefixOf e.log_entry.data = false)
    (hmsg3 : [' '].isPrefixOf e.log_entry.data = false) :
    (mode_print_line e).data =
      ts_chars e ++ ' ' :: (e.host.data ++ ' ' :: (e.daemon.data ++ ' ' :: e.log_entry.data)) := by
  unfold mode_print_line daemon_sep strip_msg
  rw [hdae2]
  simp only [hmsg2, hmsg3, Bool.false_eq_true, if_false, string_data_mk, beq_self_eq_true,
    if_true, List.append_nil, List.append_assoc, List.singleton_append, List.cons_append,
    List.nil_append]

theorem splitWsStr_print (e : LogEntry)
    (hhost1 : e.host.data ≠ []) (hhost2 : ∀ c ∈ e.host.data, c.isWhitespace = false)
    (hdae1 : ∀ c ∈ e.daemon.data, c.isWhitespace = false)
    (hdae2 : e.daemon.data.getLast? = some ':')
    (hmsg2 : [':', ' '].isPrefixOf e.log_entry.data = false)
    (hmsg3 : [' '].isPrefixOf e.log_entry.data = false) :
    splitWsStr (mode_print_line e) =
      String.mk (ts_chars e) :: e.host :: e.daemon :: splitWsStr e.log_entry := by
  have hdaene : e.daemon.data ≠ [] := by
    intro hnil
    rw [hnil] at hdae2
    simp at hdae2
  unfold splitWsStr
  rw [mode_print_line_data e hdae2 hmsg2 hmsg3]
  rw [wsWords_append_word _ _ (ts_chars_no_ws e) (ts_chars_ne_nil e)]
  rw [wsWords_append_word _ _ hhost2 hhost1]
  rw [wsWords_append_word _ _ hdae1 hdaene]
  simp only [List.map_cons, string_mk_data]

theorem date_block_no_t (e : LogEntry) :
    ∀ c ∈ intPad4 e.year ++ ['-'] ++ pad2 e.month ++ ['-'] ++ pad2 e.day,
      (c == 'T') = false := by
  intro c hc
  simp only [List.append_assoc, List.mem_append, List.mem_singleton] at hc
  have hne : c ≠ 'T' := by
    rcases hc with h | h | h | h | h
    · rcases intPad4_chars e.year c h with h2 | h2
      · exact (digitForm_props h2).2.2.1
      · rw [h2]; decide
    · rw [h]; decide
    · exact (digitForm_props (pad2_digitForm e.month c h)).2.2.1
    · rw [h]; decide
    · exact (digitForm_props (pad2_digitForm e.day c h)).2.2.1
  exact beq_eq_false_iff_ne.mpr hne

theorem time_block_classes (e : LogEntry) :
    ∀ c ∈ pad2 e.hour ++ [':'] ++ pad2 e.minute ++ [':'] ++ pad2 e.second,
      DigitForm c ∨ c = ':' := by
  intro c hc
  simp only [List.append_assoc, List.mem_append, List.mem_singleton] at hc
  rcases hc with h | h | h | h | h
  · exact Or.inl (pad2_digitForm e.hour c h)
  · exact Or.inr h
  · exact Or.inl (pad2_digitForm e.minute c h)
  · exact Or.inr h
  · exact Or.inl (pad2_digitForm e.second c h)

theorem time_block_no_t (e : LogEntry) :
    ∀ c ∈ pad2 e.hour ++ [':'] ++ pad2 e.minute ++ [':'] ++ pad2 e.second,
      (c == 'T') = false := by
  intro c hc
  apply beq_eq_false_iff_ne.mpr
  rcases time_block_classes e c hc with h | h
  · exact (digitForm_props h).2.2.1
  · rw [h]; decide

theorem splitCharStr_ts (e : LogEntry) :
    splitCharStr 'T' (String.mk (ts_chars e)) =
      [String.mk (intPad4 e.year ++ ['-'] ++ pad2 e.month ++ ['-'] ++ pad2 e.day),
        String.mk (pad2 e.hour ++ [':'] ++ pad2 e.minute ++ [':'] ++ pad2 e.second)] := by
  unfold splitCharStr
  rw [string_data_mk]
  have hshape : ts_chars e =
      (intPad4 e.year ++ ['-'] ++ pad2 e.month ++ ['-'] ++ pad2 e.day) ++
        'T' :: (pad2 e.hour ++ [':'] ++ pad2 e.minute ++ [':'] ++ pad2 e.second) := by
    unfold ts_chars
    simp [List.append_assoc]
  rw [hshape]
  rw [splitBy_append_sep _ 'T' (by decide) _ _ (date_block_no_t e)]
  rw [splitBy_no_sep _ _ (time_block_no_t e)]
  rfl

theorem splitCharStr_date (e : LogEntry) (hy : 0 ≤ e.year) :
    splitCharStr '-' (String.mk (intPad4 e.year ++ ['-'] ++ pad2 e.month ++ ['-'] ++ pad2 e.day)) =
      [String.mk (padZeros 4 (natDecimal e.year.toNat)),
        String.mk (pad2 e.month), String.mk (pad2 e.day)] := by
  unfold splitCharStr
  rw [string_data_mk]
  have hy4 : intPad4 e.year = padZeros 4 (natDecimal e.year.toNat) := by
    unfold intPad4
    rw [if_neg (not_lt.mpr hy)]
  rw [hy4]
  have hshape : padZeros 4 (natDecimal e.year.toNat) ++ ['-'] ++ pad2 e.month ++ ['-'] ++ pad2 e.day =
      padZeros 4 (natDecimal e.year.toNat) ++ '-' :: (pad2 e.month ++ '-' :: pad2 e.day) := by
    simp [List.append_assoc]
  rw [hshape]
  have hnd1 : ∀ c ∈ padZeros 4 (natDecimal e.year.toNat), (c == '-') = false := by
    intro c hc
    exact beq_eq_false_iff_ne.mpr
      (digitForm_props (padZeros_natDecimal_digitForm 4 e.year.toNat c hc)).2.2.2.1
  have hnd2 : ∀ c ∈ pad2 e.month, (c == '-') = false := by
    intro c hc
    exact beq_eq_false_iff_ne.mpr (digitForm_props (pad2_digitForm e.month c hc)).2.2.2.1
  have hnd3 : ∀ c ∈ pad2 e.day, (c == '-') = false := by
    intro c hc
    exact beq_eq_false_iff_ne.mpr (digitForm_props (pad2_digitForm e.day c hc)).2.2.2.1
  rw [splitBy_append_sep _ '-' (by decide) _ _ hnd1]
  rw [splitBy_append_sep _ '-' (by decide) _ _ hnd2]
  rw [splitBy_no_sep _ _ hnd3]
  rfl

theorem time_block_no_sign (e : LogEntry) :
    ∀ c ∈ pad2 e.hour ++ [':'] ++ pad2 e.minute ++ [':'] ++ pad2 e.second,
      ((c == '-' || c == '+') : Bool) = false := by
  intro c hc
  rcases time_block_classes e c hc with h | h
  · have h1 := (digitForm_props h).2.2.2.1
    have h2 := (digitForm_props h).2.2.2.2.1
    simp [beq_eq_false_iff_ne.mpr h1, beq_eq_false_iff_ne.mpr h2]
  · rw [h]; decide

theorem time_block_no_dot (e : LogEntry) :
    ∀ c ∈ pad2 e.hour ++ [':'] ++ pad2 e.minute ++ [':'] ++ pad2 e.second,
      (c == '.') = false := by
  intro c hc
  apply beq_eq_false_iff_ne.mpr
  rcases time_block_classes e c hc with h | h
  · exact (digitForm_props h).2.2.2.2.2.2.1
  · rw [h]; decide

theorem colon_split_time (e : LogEntry) :
    splitBy (fun x => x == ':') (pad2 e.hour ++ [':'] ++ pad2 e.minute ++ [':'] ++ pad2 e.second) =
      [pad2 e.hour, pad2 e.minute, pad2 e.second] := by
  have hshape : pad2 e.hour ++ [':'] ++ pad2 e.minute ++ [':'] ++ pad2 e.second =
      pad2 e.hour ++ ':' :: (pad2 e.minute ++ ':' :: pad2 e.second) := by
    simp [List.append_assoc]
  rw [hshape]
  have hn1 : ∀ c ∈ pad2 e.hour, (c == ':') = false := fun c hc =>
    beq_eq_false_iff_ne.mpr (digitForm_props (pad2_digitForm e.hour c hc)).2.2.2.2.2.1
  have hn2 : ∀ c ∈ pad2 e.minute, (c == ':') = false := fun c hc =>
    beq_eq_false_iff_ne.mpr (digitForm_props (pad2_digitForm e.minute c hc)).2.2.2.2.2.1
  have hn3 : ∀ c ∈ pad2 e.second, (c == ':') = false := fun c hc =>
    beq_eq_false_iff_ne.mpr (digitForm_props (pad2_digitForm e.second c hc)).2.2.2.2.2.1
  rw [splitBy_append_sep _ ':' (by decide) _ _ hn1]
  rw [splitBy_append_sep _ ':' (by decide) _ _ hn2]
  rw [splitBy_no_sep _ _ hn3]

theorem parse_u32_pad2 (n : Nat) (h : n < 2 ^ 32) :
    parse_u32 (String.mk (pad2 n)) = some n := by
  unfold pad2
  exact parse_u32_pad 2 n h

/-- C7 (amended): printing a record through the `mode_print` format and
re-parsing the line with the RSyslog grammar reproduces every field
value, provided the record's daemon already ends in a colon, its host is
a non-empty whitespace-free token, its daemon is whitespace-free, its
message is in canonical whitespace form and does not begin with the
stripped `": "` or `" "` texts, and its numeric fields lie in the Rust
integer ranges with a non-negative year.  Without the daemon colon the
round trip fails: the printed separator colon becomes part of the
re-parsed daemon (see the counterexample). -/
theorem rsyslog_parse_structured (line t h d : String) (rest : List String)
    (dstr tstr ystr mostr dastr : String) (hs ms ss : List Char)
    (year : Int) (month day hour minute second : Nat)
    (hsplit : splitWsStr line = t :: h :: d :: rest)
    (hts : splitCharStr 'T' t = [dstr, tstr])
    (hdate : splitCharStr '-' dstr = [ystr, mostr, dastr])
    (hy : parse_i32 ystr = some year)
    (hmo : parse_u32 mostr = some month)
    (hda : parse_u32 dastr = some day)
    (htime : splitBy (fun x => x == ':')
        ((splitBy (fun x => x == '.')
          ((splitBy (fun x => x == '-' || x == '+') tstr.data).headD [])).headD []) =
        [hs, ms, ss])
    (hhr : parse_u32 (String.mk hs) = some hour)
    (hmin : parse_u32 (String.mk ms) = some minute)
    (hsec : parse_u32 (String.mk ss) = some second) :
    rsyslog_parse line = Except.ok
      { year := year, month := month, day := day, hour := hour, minute := minute,
        second := second, host := h, daemon := d, log_entry := joinSpaceStr rest } := by
  unfold rsyslog_parse
  rw [hsplit]
  simp only [List.length_cons, List.getD_cons_zero, List.getD_cons_succ,
    List.drop_succ_cons, List.drop_zero]
  rw [if_neg (by omega)]
  rw [hts]
  simp only [List.length_cons, List.length_nil, List.getD_cons_zero, List.getD_cons_succ]
  rw [if_neg (by decide)]
  rw [hdate]
  simp only [List.length_cons, List.length_nil, List.getD_cons_zero, List.getD_cons_succ]
  rw [if_neg (by decide)]
  rw [hy, hmo, hda]
  rw [htime]
  simp only [List.map_cons, List.map_nil, List.length_cons, List.length_nil,
    List.getD_cons_zero, List.getD_cons_succ]
  rw [if_neg (by decide)]
  rw [hhr, hmin, hsec]

/-- C7 (amended): printing a record through the `mode_print` format and
re-parsing the line with the RSyslog grammar reproduces every field
value, provided the record's daemon already ends in a colon, its host is
a non-empty whitespace-free token, its daemon is whitespace-free, its
message is in canonical whitespace form and does not begin with the
stripped `": "` or `" "` texts, and its numeric fields lie in the Rust
integer ranges with a non-negative year.  Without the daemon colon the
round trip fails: the printed separator colon becomes part of the
re-parsed daemon (see the counterexample). -/
theorem C7_print_roundtrip_amended (e : LogEntry)
    (hy0 : 0 ≤ e.year) (hy1 : e.year < 2 ^ 31)
    (hmo : e.month < 2 ^ 32) (hda : e.day < 2 ^ 32) (hho : e.hour < 2 ^ 32)
    (hmi : e.minute < 2 ^ 32) (hse : e.second < 2 ^ 32)
    (hhost1 : e.host.data ≠ []) (hhost2 : NoWhitespace e.host)
    (hdae1 : NoWhitespace e.daemon)
    (hdae2 : e.daemon.data.getLast? = some ':')
    (hmsg : CanonicalMessage e.log_entry) :
    rsyslog_parse (mode_print_line e) = Except.ok e := by
  obtain ⟨hmsg1, hmsg2, hmsg3⟩ := hmsg
  have hparts := splitWsStr_print e hhost1 hhost2 hdae1 hdae2 hmsg2 hmsg3
  have hyv : parse_i32 (String.mk (padZeros 4 (natDecimal e.year.toNat))) = some e.year := by
    have htn : e.year.toNat < 2 ^ 31 := by omega
    rw [parse_i32_pad4 e.year.toNat htn]
    rw [Int.toNat_of_nonneg hy0]
  have htime : splitBy (fun x => x == ':')
      ((splitBy (fun x => x == '.')
        ((splitBy (fun x => x == '-' || x == '+')
          (String.mk (pad2 e.hour ++ [':'] ++ pad2 e.minute ++ [':'] ++
            pad2 e.second)).data).headD [])).headD []) =
      [pad2 e.hour, pad2 e.minute, pad2 e.second] := by
    rw [string_data_mk]
    rw [splitBy_no_sep _ _ (time_block_no_sign e)]
    simp only [List.headD_cons]
    rw [splitBy_no_sep _ _ (time_block_no_dot e)]
    simp only [List.headD_cons]
    exact colon_split_time e
  have hmain := rsyslog_parse_structured (mode_print_line e)
    (String.mk (ts_chars e)) e.host e.daemon (splitWsStr e.log_entry)
    (String.mk (intPad4 e.year ++ ['-'] ++ pad2 e.month ++ ['-'] ++ pad2 e.day))
    (String.mk (pad2 e.hour ++ [':'] ++ pad2 e.minute ++ [':'] ++ pad2 e.second))
    (String.mk (padZeros 4 (natDecimal e.year.toNat)))
    (String.mk (pad2 e.month)) (String.mk (pad2 e.day))
    (pad2 e.hour) (pad2 e.minute) (pad2 e.second)
    e.year e.month e.day e.hour e.minute e.second
    hparts (splitCharStr_ts e) (splitCharStr_date e hy0)
    hyv (parse_u32_pad2 e.month hmo) (parse_u32_pad2 e.day hda)
    htime (parse_u32_pad2 e.hour hho) (parse_u32_pad2 e.minute hmi)
    (parse_u32_pad2 e.second hse)
  rw [hmain, hmsg1]

/-- Concrete use of the round-trip theorem on a colon-terminated daemon
and a canonical two-word message. -/
theorem C7_print_roundtrip_witness :
    rsyslog_parse (mode_print_line roundWitEntry) = Except.ok roundWitEntry :=
  C7_print_roundtrip_amended roundWitEntry (by decide) (by decide) (by decide)
    (by decide) (by decide) (by decide) (by decide) (by decide)
    (by unfold NoWhitespace; decide) (by unfold NoWhitespace; decide)
    (by decide) (by unfold CanonicalMessage; decide)

/-- Counterexample to C7 as stated: the record parsed from the valid
RSyslog line `2020-06-24T17:56:32 host1 sshd hello` has daemon `sshd`
without a trailing colon; `mode_print` inserts a colon-space separator,
so re-parsing the printed line yields daemon `sshd:` and the field
values are not reproduced. -/
theorem C7_print_roundtrip_cex :
    rsyslog_parse ("2020-06-24T17:56:32 host1 sshd hello") = Except.ok roundCexEntry ∧
      rsyslog_parse (mode_print_line roundCexEntry) ≠ Except.ok roundCexEntry := by decide

end Glancelog
